import Mathlib

/-!
Verification of the pizzeria-RAG retrieval pipeline.

This file gives a shallow embedding, in Lean 4, of the retrieval core of the
repository: the Python string operations it relies on, the allergen
configuration table (`config/config.py`), allergen detection and user-allergen
extraction (`src/core/rag_engine.py`), word-window chunking and multi-collection
search (`src/core/vector_store.py`), the generic document chunker
(`src/utils/chunking.py`), and the context-aggregation / answer-composition
logic (`src/core/rag_engine.py`).  External effects (the Ollama chat and
embedding models, the ChromaDB collections, the filesystem) are passed in as
explicit function parameters; everything else is translated directly from the
Python source.
-/

/-! ## Python string primitives

The Python code works on `str` values via `lower()`, `in` (substring test),
`split()`, `split(sep)`, `strip()`, `join`, `replace` and `title()`.  These are
modelled below on `List Char` / `String`.  Case conversion is modelled on the
ASCII and Latin-1 letter ranges, which cover every letter appearing in the
repository's configuration and prompts (Python's full Unicode case rules differ
outside these ranges, e.g. on `ß`). -/

/-- Python `str.lower` on one character: ASCII `A`-`Z` and Latin-1 `À`-`Þ`
(except `×`) map to their lowercase forms 32 code points higher. -/
def pyLowerChar (c : Char) : Char :=
  if 0x41 ≤ c.toNat ∧ c.toNat ≤ 0x5A then Char.ofNat (c.toNat + 32)
  else if 0xC0 ≤ c.toNat ∧ c.toNat ≤ 0xDE ∧ c.toNat ≠ 0xD7 then Char.ofNat (c.toNat + 32)
  else c

/-- Python `str.upper` on one character: ASCII `a`-`z` and Latin-1 `à`-`þ`
(except `÷`) map to their uppercase forms 32 code points lower. -/
def pyUpperChar (c : Char) : Char :=
  if 0x61 ≤ c.toNat ∧ c.toNat ≤ 0x7A then Char.ofNat (c.toNat - 32)
  else if 0xE0 ≤ c.toNat ∧ c.toNat ≤ 0xFE ∧ c.toNat ≠ 0xF7 then Char.ofNat (c.toNat - 32)
  else c

/-- Python `str.lower`. -/
def pyLower (s : String) : String := String.mk (s.toList.map pyLowerChar)

/-- Python `str.upper`. -/
def pyUpper (s : String) : String := String.mk (s.toList.map pyUpperChar)

/-- A letter, for the purposes of `str.title`: ASCII or Latin-1. -/
def pyIsAlphaChar (c : Char) : Bool :=
  (0x41 ≤ c.toNat && c.toNat ≤ 0x5A) || (0x61 ≤ c.toNat && c.toNat ≤ 0x7A) ||
    (0xC0 ≤ c.toNat && c.toNat ≤ 0xFF && c.toNat ≠ 0xD7 && c.toNat ≠ 0xF7)

/-- Python `str.title`, character by character: a letter is uppercased when the
previous character is not a letter, lowercased otherwise. -/
def pyTitleGo : Bool → List Char → List Char
  | _, [] => []
  | prevAlpha, c :: cs =>
    (if pyIsAlphaChar c then (if prevAlpha then pyLowerChar c else pyUpperChar c) else c)
      :: pyTitleGo (pyIsAlphaChar c) cs

/-- Python `str.title`. -/
def pyTitle (s : String) : String := String.mk (pyTitleGo false s.toList)

/-- Prefix test on character lists (`List.isPrefixOf` specialised to `Char`,
kept local so its equations are directly available to proofs). -/
def listIsPre : List Char → List Char → Bool
  | [], _ => true
  | _ :: _, [] => false
  | a :: ps, b :: ls => a == b && listIsPre ps ls

/-- Substring test on character lists: `listIsSub p l` holds when `p` occurs
contiguously inside `l` (this is Python's `p in l` on strings). -/
def listIsSub (p : List Char) : List Char → Bool
  | [] => listIsPre p []
  | l@(_ :: ls) => listIsPre p l || listIsSub p ls

/-- Python's substring operator `sub in s`. -/
def pyIn (sub s : String) : Bool := listIsSub sub.toList s.toList

/-- The whitespace characters recognised by Python's `str.split()` /
`str.strip()` for the texts in this repository. -/
def isPySpace (c : Char) : Bool :=
  c == ' ' || c == '\t' || c == '\n' || c == '\r' || c == '\x0b' || c == '\x0c'

/-- Python `str.split()` (split on whitespace runs, dropping empty pieces),
on character lists.  The first argument is fuel; `splitWsF l.length l` is the
intended call, and each step consumes at least one character. -/
def splitWsF : Nat → List Char → List (List Char)
  | 0, _ => []
  | n + 1, l =>
    match l.dropWhile isPySpace with
    | [] => []
    | l' => l'.takeWhile (fun c => !isPySpace c)
        :: splitWsF n (l'.dropWhile (fun c => !isPySpace c))

/-- Python `text.split()`: the whitespace-separated words of a string. -/
def pyWords (s : String) : List String :=
  (splitWsF s.toList.length s.toList).map String.mk

/-- Python `str.strip()` on a character list: drop leading and trailing
whitespace. -/
def pyStripL (l : List Char) : List Char :=
  ((l.dropWhile isPySpace).reverse.dropWhile isPySpace).reverse

/-- Python `str.strip()`. -/
def pyStrip (s : String) : String := String.mk (pyStripL s.toList)

/-- Python `' '.join(words)`. -/
def spaceJoin : List String → String
  | [] => ""
  | [w] => w
  | w :: ws => w ++ " " ++ spaceJoin ws

/-- Python `s.split(sep)` for a non-empty separator, on character lists.  The
first argument is fuel; each step consumes at least one character. -/
def splitSepF (sep : List Char) : Nat → List Char → List (List Char)
  | _, [] => [[]]
  | 0, l => [l]
  | n + 1, l@(c :: rest) =>
    if sep ≠ [] && listIsPre sep l then
      [] :: splitSepF sep n (l.drop sep.length)
    else
      match splitSepF sep n rest with
      | [] => [[c]]
      | piece :: pieces => (c :: piece) :: pieces

/-- Python `s.split(sep)`.  (Python raises on an empty separator; the
repository never passes one, and this model then returns `[s]`.) -/
def pySplitSep (s sep : String) : List String :=
  (splitSepF sep.toList s.toList.length s.toList).map String.mk

/-- Python `s.replace(old, new)` for a non-empty `old`. -/
def pyReplace (s old new : String) : String :=
  String.intercalate new (pySplitSep s old)

/-- Python `', '.join(xs)`-style joins used throughout the prompt builder. -/
def commaJoin (xs : List String) : String := String.intercalate ", " xs

/-! ## Allergen configuration (`config/config.py`, `AllergenConfig`) -/

namespace AllergenConfig

/-- `AllergenConfig.allergens_list` default value (`config/config.py`). -/
def allergens_list : List String :=
  ["Gluten", "Crustacés", "Oeufs", "Poissons", "Arachides", "Soja", "Lait",
   "Fruits à coque", "Céleri", "Moutarde", "Sésame", "Sulfites", "Lupin", "Mollusques"]

/-- `AllergenConfig.get_allergen_keywords` (`config/config.py`): keywords used
to detect each allergen, in source order. -/
def get_allergen_keywords : List (String × List String) :=
  [("Gluten", ["gluten", "blé", "froment", "épeautre", "kamut", "seigle", "orge", "avoine", "farine"]),
   ("Crustacés", ["crustacés", "crustacé", "crevette", "homard", "crabe", "langoustine", "écrevisse"]),
   ("Oeufs", ["oeuf", "œuf", "oeufs", "œufs", "albumine", "lecithine d'oeuf"]),
   ("Poissons", ["poisson", "poissons", "anchois", "thon", "saumon", "sardine", "colin", "cabillaud"]),
   ("Arachides", ["arachide", "arachides", "cacahuète", "cacahouète", "beurre de cacahuète"]),
   ("Soja", ["soja", "sauce soja", "lecithine de soja", "protéine de soja"]),
   ("Lait", ["lait", "crème", "beurre", "fromage", "yaourt", "lactose", "caséine", "lactosérum"]),
   ("Fruits à coque", ["fruits à coque", "amande", "noisette", "noix", "pistache", "cajou", "pécan", "macadamia", "pignon"]),
   ("Céleri", ["céleri", "céleri-rave"]),
   ("Moutarde", ["moutarde", "graines de moutarde"]),
   ("Sésame", ["sésame", "graines de sésame", "huile de sésame", "tahini"]),
   ("Sulfites", ["sulfite", "sulfites", "anhydride sulfureux", "E220", "E221", "E222", "E223", "E224", "E225", "E226", "E227", "E228"]),
   ("Lupin", ["lupin", "farine de lupin"]),
   ("Mollusques", ["mollusque", "mollusques", "escargot", "huître", "moule", "coquille saint-jacques", "calmar", "poulpe"])]

end AllergenConfig

/-! ## Allergen analysis (`src/core/rag_engine.py`, `LLMInterface`) -/

/-- Append `x` to the Python list `acc` unless it is already present — the
`if x not in acc: acc.append(x)` idiom used throughout `rag_engine.py`. -/
def addIfAbsent (acc : List String) (x : String) : List String :=
  if acc.contains x then acc else acc ++ [x]

namespace LLMInterface

/-- `LLMInterface.detect_allergens_in_text`: an allergen category is collected
when any of its keywords occurs in the lowercased text; the keyword scan for a
category stops at the first hit. -/
def detect_allergens_in_text (text : String) : List String :=
  if text == "" then []
  else
    let text_lower := pyLower text
    AllergenConfig.get_allergen_keywords.foldl (fun detected p =>
      if p.2.any (fun keyword => pyIn keyword text_lower) then
        addIfAbsent detected p.1
      else detected) []

/-- The general allergy-context indicator words of
`extract_user_allergens_from_question` (`rag_engine.py`). -/
def allergen_context_indicators : List String :=
  ["allergique", "allergie", "allergies", "allergène", "allergènes",
   "intolerance", "intolérant", "sans", "éviter", "peut pas manger",
   "ne peux pas manger", "ne mange pas"]

/-- The explicit negative-association phrase patterns built for one keyword in
`extract_user_allergens_from_question` (`rag_engine.py`), in source order
(including the duplicated `"allergie aux …"` entry). -/
def allergen_patterns (keyword : String) : List String :=
  ["allergique au " ++ keyword, "allergique à " ++ keyword, "allergique aux " ++ keyword,
   "allergie au " ++ keyword, "allergie à " ++ keyword, "allergie aux " ++ keyword,
   "pas de " ++ keyword, "sans " ++ keyword, "éviter " ++ keyword,
   "ne peut pas manger " ++ keyword, "ne peux pas manger " ++ keyword,
   "ne mange pas " ++ keyword, "intolérant au " ++ keyword, "intolérant à " ++ keyword,
   "intolerance au " ++ keyword, "intolerance à " ++ keyword, "éviter les " ++ keyword,
   "allergie aux " ++ keyword, "peut pas manger de " ++ keyword,
   "ne peux pas manger de " ++ keyword]

/-- The four generic allergy-context words consulted by the liberal fallback
branch of `extract_user_allergens_from_question` (`rag_engine.py`, line 480). -/
def liberal_context_words : List String := ["allergique", "allergie", "sans", "éviter"]

/-- Processing of one `(allergen, keywords)` table entry inside
`extract_user_allergens_from_question`: for each keyword present in the
lowercased question, either an explicit pattern matches (append the allergen if
absent) or, failing that, the liberal four-word context check fires (append the
allergen if absent). -/
def extractKeywordLoop (question_lower : String) (allergen : String) :
    List String → List String → List String
  | acc, [] => acc
  | acc, keyword :: keywords =>
    if pyIn keyword question_lower then
      if (allergen_patterns keyword).any (fun pattern => pyIn pattern question_lower) then
        extractKeywordLoop question_lower allergen (addIfAbsent acc allergen) keywords
      else
        if liberal_context_words.any (fun context => pyIn context question_lower)
            && !(acc.contains allergen) then
          extractKeywordLoop question_lower allergen (acc ++ [allergen]) keywords
        else
          extractKeywordLoop question_lower allergen acc keywords
    else
      extractKeywordLoop question_lower allergen acc keywords

/-- `LLMInterface.extract_user_allergens_from_question` (`rag_engine.py`). -/
def extract_user_allergens_from_question (question : String) : List String :=
  let question_lower := pyLower question
  if allergen_context_indicators.any (fun indicator => pyIn indicator question_lower) then
    AllergenConfig.get_allergen_keywords.foldl
      (fun acc p => extractKeywordLoop question_lower p.1 acc p.2) []
  else
    []

end LLMInterface

/-! ## Lemmas on the allergen scans -/

/-- Membership after `addIfAbsent`. -/
theorem mem_addIfAbsent {y : String} (acc : List String) (x : String) :
    y ∈ addIfAbsent acc x ↔ y ∈ acc ∨ y = x := by
  unfold addIfAbsent
  split
  · next hc =>
    constructor
    · exact Or.inl
    · rintro (h | rfl)
      · exact h
      · exact List.elem_iff.mp hc
  · next _ =>
    rw [List.mem_append, List.mem_singleton]

/-- `addIfAbsent` extends its input list. -/
theorem subset_addIfAbsent (acc : List String) (x : String) : acc ⊆ addIfAbsent acc x :=
  fun _ hy => (mem_addIfAbsent acc x).mpr (Or.inl hy)

/-- `addIfAbsent` puts its argument into the result. -/
theorem self_mem_addIfAbsent (acc : List String) (x : String) : x ∈ addIfAbsent acc x :=
  (mem_addIfAbsent acc x).mpr (Or.inr rfl)

/-- Membership in one step of the `detect_allergens_in_text` fold. -/
theorem mem_detect_step (text_lower : String) (acc : List String)
    (q : String × List String) (x : String) :
    x ∈ (if q.2.any (fun keyword => pyIn keyword text_lower) then
          addIfAbsent acc q.1
        else acc) ↔
      x ∈ acc ∨ (q.1 = x ∧ q.2.any (fun keyword => pyIn keyword text_lower) = true) := by
  split
  · next hq =>
    rw [mem_addIfAbsent]
    constructor
    · rintro (h | h)
      · exact Or.inl h
      · exact Or.inr ⟨h.symm, hq⟩
    · rintro (h | ⟨h₁, -⟩)
      · exact Or.inl h
      · exact Or.inr h₁.symm
  · next hq =>
    rw [Bool.not_eq_true] at hq
    constructor
    · exact Or.inl
    · rintro (h | ⟨-, h₂⟩)
      · exact h
      · rw [hq] at h₂
        cases h₂

/-- Membership in the `detect_allergens_in_text` fold: an element is collected
exactly when it was already in the accumulator or is the key of a table entry
one of whose keywords occurs in the text. -/
theorem mem_detect_foldl (text_lower : String) (x : String) :
    ∀ (table : List (String × List String)) (acc : List String),
    (x ∈ table.foldl (fun detected p =>
        if p.2.any (fun keyword => pyIn keyword text_lower) then
          addIfAbsent detected p.1
        else detected) acc ↔
      x ∈ acc ∨ ∃ p ∈ table, p.1 = x ∧ p.2.any (fun keyword => pyIn keyword text_lower) = true)
  | [], acc => by simp
  | q :: table, acc => by
    rw [List.foldl_cons, mem_detect_foldl text_lower x table, mem_detect_step]
    simp only [List.mem_cons]
    constructor
    · rintro ((h | ⟨h₁, h₂⟩) | ⟨p, hp, h₁, h₂⟩)
      · exact Or.inl h
      · exact Or.inr ⟨q, Or.inl rfl, h₁, h₂⟩
      · exact Or.inr ⟨p, Or.inr hp, h₁, h₂⟩
    · rintro (h | ⟨p, hp | hp, h₁, h₂⟩)
      · exact Or.inl (Or.inl h)
      · subst hp
        exact Or.inl (Or.inr ⟨h₁, h₂⟩)
      · exact Or.inr ⟨p, hp, h₁, h₂⟩

/-- The accumulator is preserved by `extractKeywordLoop`. -/
theorem extractKeywordLoop_mono (ql a : String) :
    ∀ (keywords acc : List String), acc ⊆ LLMInterface.extractKeywordLoop ql a acc keywords
  | [], _ => fun _ hx => hx
  | keyword :: keywords, acc => by
    unfold LLMInterface.extractKeywordLoop
    split
    · split
      · exact fun x hx =>
          extractKeywordLoop_mono ql a keywords _ (subset_addIfAbsent acc a hx)
      · split
        · exact fun x hx =>
            extractKeywordLoop_mono ql a keywords _ (List.mem_append_left _ hx)
        · exact extractKeywordLoop_mono ql a keywords acc
    · exact extractKeywordLoop_mono ql a keywords acc

/-- Once the liberal four-word context check fires and some keyword of the
category occurs in the question, `extractKeywordLoop` puts the category into
its result (whether or not any explicit pattern matches). -/
theorem extractKeywordLoop_adds (ql a : String)
    (hlib : LLMInterface.liberal_context_words.any (fun context => pyIn context ql) = true) :
    ∀ (keywords acc : List String), (∃ k ∈ keywords, pyIn k ql = true) →
      a ∈ LLMInterface.extractKeywordLoop ql a acc keywords
  | [], acc => by
    rintro ⟨k, hk, -⟩
    exact absurd hk (List.not_mem_nil k)
  | keyword :: keywords, acc => by
    rintro ⟨k, hk, hin⟩
    unfold LLMInterface.extractKeywordLoop
    split
    · next h₁ =>
      split
      · exact extractKeywordLoop_mono ql a keywords _ (self_mem_addIfAbsent acc a)
      · split
        · next h₃ =>
          exact extractKeywordLoop_mono ql a keywords _
            (List.mem_append_right _ (List.mem_singleton.mpr rfl))
        · next h₃ =>
          rw [hlib, Bool.true_and, Bool.not_eq_true', Bool.not_eq_false] at h₃
          exact extractKeywordLoop_mono ql a keywords acc (List.elem_iff.mp h₃)
    · next h₁ =>
      rcases List.mem_cons.mp hk with hkk | hkt
      · subst hkk
        exact absurd hin h₁
      · exact extractKeywordLoop_adds ql a hlib keywords acc ⟨k, hkt, hin⟩

/-- The accumulator is preserved by the outer fold of
`extract_user_allergens_from_question`. -/
theorem extract_foldl_mono (ql : String) :
    ∀ (table : List (String × List String)) (acc : List String),
      acc ⊆ table.foldl (fun acc p => LLMInterface.extractKeywordLoop ql p.1 acc p.2) acc
  | [], _ => fun _ hx => hx
  | q :: table, acc => by
    rw [List.foldl_cons]
    exact fun x hx =>
      extract_foldl_mono ql table _ (extractKeywordLoop_mono ql q.1 q.2 acc hx)

/-- If some table entry's category has a keyword occurring in the question and
the liberal context check fires, the outer fold collects that category. -/
theorem extract_foldl_adds (ql : String)
    (hlib : LLMInterface.liberal_context_words.any (fun context => pyIn context ql) = true) :
    ∀ (table : List (String × List String)) (acc : List String)
      (p : String × List String), p ∈ table → (∃ k ∈ p.2, pyIn k ql = true) →
      p.1 ∈ table.foldl (fun acc q => LLMInterface.extractKeywordLoop ql q.1 acc q.2) acc
  | [], acc, p => by
    intro hp
    exact absurd hp (List.not_mem_nil p)
  | q :: table, acc, p => by
    intro hp hk
    rw [List.foldl_cons]
    rcases List.mem_cons.mp hp with hpq | hpt
    · subst hpq
      exact extract_foldl_mono ql table _ (extractKeywordLoop_adds ql p.1 hlib p.2 acc hk)
    · exact extract_foldl_adds ql hlib table _ p hpt hk

/-! ## Claims C4, C5, C6 -/

/-- C4: for every question containing none of the allergy-context indicator
words, `extract_user_allergens_from_question` returns the empty set; in
particular `"j'aime les arachides"` yields `[]` while
`"je suis allergique aux arachides"` yields `["Arachides"]`. -/
theorem C4_no_context_no_allergens :
    (∀ question : String,
        (∀ indicator ∈ LLMInterface.allergen_context_indicators,
          pyIn indicator (pyLower question) = false) →
        LLMInterface.extract_user_allergens_from_question question = []) ∧
    LLMInterface.extract_user_allergens_from_question "je suis allergique aux arachides"
      = ["Arachides"] ∧
    LLMInterface.extract_user_allergens_from_question "j'aime les arachides" = [] := by
  refine ⟨?_, by decide, by decide⟩
  intro question h
  have hany : LLMInterface.allergen_context_indicators.any
      (fun indicator => pyIn indicator (pyLower question)) = false :=
    List.any_eq_false.mpr (fun ind hind => by rw [h ind hind]; exact Bool.false_ne_true)
  simp only [LLMInterface.extract_user_allergens_from_question]
  split
  · next hc => rw [hany] at hc; cases hc
  · rfl

/-- C4 witness: the universally quantified part of
`C4_no_context_no_allergens` applied at the concrete question
`"j'aime les arachides"`, whose lowercased text contains no indicator word. -/
theorem C4_no_context_no_allergens_witness :
    LLMInterface.extract_user_allergens_from_question "j'aime les arachides" = [] :=
  C4_no_context_no_allergens.1 "j'aime les arachides" (by decide)

/-- C5 counterexample: the question `"je suis intolérant le lait me rend
malade"` contains the allergy-context indicator word `"intolérant"` and the
keyword `"lait"` of category `Lait`, yet
`extract_user_allergens_from_question` returns `[]` — no explicit pattern
matches and the liberal fallback tests only the four words `"allergique"`,
`"allergie"`, `"sans"`, `"éviter"`, none of which occurs.  This refutes the
claim that indicator-word context plus a keyword always yields the category. -/
theorem C5_counterexample :
    ("intolérant" ∈ LLMInterface.allergen_context_indicators ∧
      pyIn "intolérant" (pyLower "je suis intolérant le lait me rend malade") = true) ∧
    (AllergenConfig.get_allergen_keywords.any (fun p => p.1 == "Lait" &&
        p.2.any (fun k => pyIn k (pyLower "je suis intolérant le lait me rend malade")))
      = true) ∧
    LLMInterface.extract_user_allergens_from_question
      "je suis intolérant le lait me rend malade" = [] :=
  ⟨⟨by decide, by decide⟩, by decide, by decide⟩

/-- C5 (amended): for every question that contains one of the four liberal
context words `"allergique"`, `"allergie"`, `"sans"`, `"éviter"` (rather than
an arbitrary allergy-context indicator word) and contains some keyword of an
allergen category, `extract_user_allergens_from_question` includes that
category, whether or not any explicit negative-association phrase pattern
matches. -/
theorem C5_liberal_fallback_amended (question : String) (p : String × List String)
    (hp : p ∈ AllergenConfig.get_allergen_keywords)
    (hlib : ∃ w ∈ LLMInterface.liberal_context_words, pyIn w (pyLower question) = true)
    (hkw : ∃ k ∈ p.2, pyIn k (pyLower question) = true) :
    p.1 ∈ LLMInterface.extract_user_allergens_from_question question := by
  obtain ⟨w, hw, hwin⟩ := hlib
  have hctx : LLMInterface.allergen_context_indicators.any
      (fun indicator => pyIn indicator (pyLower question)) = true := by
    have hsub : ∀ w ∈ LLMInterface.liberal_context_words,
        w ∈ LLMInterface.allergen_context_indicators := by decide
    exact List.any_eq_true.mpr ⟨w, hsub w hw, hwin⟩
  have hlib' : LLMInterface.liberal_context_words.any
      (fun context => pyIn context (pyLower question)) = true :=
    List.any_eq_true.mpr ⟨w, hw, hwin⟩
  simp only [LLMInterface.extract_user_allergens_from_question]
  split
  · exact extract_foldl_adds (pyLower question) hlib' _ [] p hp hkw
  · next hc => exact absurd hctx hc

/-- C5 witness: `C5_liberal_fallback_amended` applied at the concrete question
`"je veux éviter tout ce qui contient des noix"` and the `Fruits à coque`
table entry: the liberal word `"éviter"` and the keyword `"noix"` occur, no
explicit phrase pattern matches, and the category is still extracted. -/
theorem C5_liberal_fallback_amended_witness :
    "Fruits à coque" ∈ LLMInterface.extract_user_allergens_from_question
      "je veux éviter tout ce qui contient des noix" :=
  C5_liberal_fallback_amended "je veux éviter tout ce qui contient des noix"
    ("Fruits à coque",
     ["fruits à coque", "amande", "noisette", "noix", "pistache", "cajou", "pécan",
      "macadamia", "pignon"])
    (by decide) (by decide) (by decide)

/-- C6: for every text and every allergen table entry, the entry's category is
in `detect_allergens_in_text text` exactly when one of its keyword variants
occurs as a substring of the lowercased text; in particular
`"pâte contient du gluten et du lait"` yields both `Gluten` and `Lait`. -/
theorem C6_detect_allergens_iff :
    (∀ text : String, ∀ p ∈ AllergenConfig.get_allergen_keywords,
        (p.1 ∈ LLMInterface.detect_allergens_in_text text ↔
          ∃ keyword ∈ p.2, pyIn keyword (pyLower text) = true)) ∧
    "Gluten" ∈ LLMInterface.detect_allergens_in_text "pâte contient du gluten et du lait" ∧
    "Lait" ∈ LLMInterface.detect_allergens_in_text "pâte contient du gluten et du lait" := by
  refine ⟨?_, by decide, by decide⟩
  intro text p hp
  unfold LLMInterface.detect_allergens_in_text
  split
  · next h0 =>
    have h0' : text = "" := by
      have := (beq_iff_eq ..).mp h0
      exact this
    constructor
    · intro h
      exact absurd h (List.not_mem_nil _)
    · rintro ⟨k, hk, hkin⟩
      have hall : ∀ q ∈ AllergenConfig.get_allergen_keywords, ∀ k ∈ q.2,
          pyIn k (pyLower "") = false := by decide
      rw [h0', hall p hp k hk] at hkin
      cases hkin
  · rw [mem_detect_foldl]
    have hnd : (AllergenConfig.get_allergen_keywords.map Prod.fst).Nodup := by decide
    constructor
    · rintro (h | ⟨q, hq, hq1, hq2⟩)
      · exact absurd h (List.not_mem_nil _)
      · have hqp : q = p := List.inj_on_of_nodup_map hnd hq hp hq1
        subst hqp
        exact List.any_eq_true.mp hq2
    · intro hk
      exact Or.inr ⟨p, hp, rfl, List.any_eq_true.mpr hk⟩

/-- C6 witness: the iff of `C6_detect_allergens_iff` applied at the concrete
text `"pâte contient du gluten et du lait"` and the `Gluten` table entry. -/
theorem C6_detect_allergens_iff_witness :
    "Gluten" ∈ LLMInterface.detect_allergens_in_text "pâte contient du gluten et du lait" :=
  (C6_detect_allergens_iff.1 "pâte contient du gluten et du lait"
      ("Gluten", ["gluten", "blé", "froment", "épeautre", "kamut", "seigle", "orge",
        "avoine", "farine"]) (by decide)).mpr ⟨"gluten", by decide, by decide⟩

/-! ## Word-splitting and joining lemmas

`VectorStore.chunk_text` splits a text into words (`text.split()`), slices
word windows, and joins each window back with single spaces.  The lemmas here
relate those operations: the words of a text are non-empty and contain no
whitespace, and splitting a space-join of such words returns them unchanged. -/

/-- A word as produced by `str.split()`: non-empty, no whitespace characters. -/
def GoodWordL (w : List Char) : Prop := w ≠ [] ∧ ∀ c ∈ w, isPySpace c = false

/-- `spaceJoin` at the level of character lists. -/
def joinSpL : List (List Char) → List Char
  | [] => []
  | [w] => w
  | w :: ws => w ++ ' ' :: joinSpL ws

theorem toList_spaceJoin : ∀ ws : List String, (spaceJoin ws).toList = joinSpL (ws.map String.toList)
  | [] => rfl
  | [_] => rfl
  | w :: v :: ws => by
    show (w ++ " " ++ spaceJoin (v :: ws)).toList = w.toList ++ ' ' :: joinSpL ((v :: ws).map String.toList)
    rw [String.toList, String.data_append, String.data_append,
      ← String.toList, ← String.toList, ← String.toList, toList_spaceJoin (v :: ws),
      List.append_assoc]
    rfl

theorem splitWsF_nil : ∀ fuel, splitWsF fuel [] = []
  | 0 => rfl
  | _ + 1 => rfl

theorem length_dropWhile_le' (p : Char → Bool) : ∀ l : List Char, (l.dropWhile p).length ≤ l.length
  | [] => le_rfl
  | c :: l => by
    rw [List.dropWhile_cons]
    split
    · exact (length_dropWhile_le' p l).trans (Nat.le_succ _)
    · exact le_rfl

/-- Head of a `dropWhile` result falsifies the predicate. -/
theorem dropWhile_head_false (p : Char → Bool) :
    ∀ (l : List Char) (c : Char) (rest : List Char), l.dropWhile p = c :: rest → p c = false
  | [], _, _ => by intro h; cases h
  | a :: l, c, rest => by
    rw [List.dropWhile_cons]
    split
    · exact dropWhile_head_false p l c rest
    · next ha =>
      intro h
      cases h
      exact Bool.not_eq_true _ ▸ ha

/-- Fuel-irrelevance for `splitWsF`: any fuel at least the length of the input
computes the same word list. -/
theorem splitWsF_congr : ∀ (f₁ : Nat) (l : List Char) (f₂ : Nat),
    l.length ≤ f₁ → l.length ≤ f₂ → splitWsF f₁ l = splitWsF f₂ l
  | 0, l, f₂ => by
    intro h₁ _
    rw [List.length_eq_zero.mp (Nat.le_zero.mp h₁)]
    exact (splitWsF_nil f₂).symm
  | _ + 1, l, 0 => by
    intro _ h₂
    rw [List.length_eq_zero.mp (Nat.le_zero.mp h₂)]
    exact splitWsF_nil _
  | n + 1, l, m + 1 => by
    intro h₁ h₂
    show splitWsF (n + 1) l = splitWsF (m + 1) l
    unfold splitWsF
    cases hd : l.dropWhile isPySpace with
    | nil => rfl
    | cons c rest =>
      have hlen : ((c :: rest).dropWhile (fun c => !isPySpace c)).length ≤ l.length - 1 := by
        have hc : (!isPySpace c) = true := by
          rw [dropWhile_head_false isPySpace l c rest hd]
          rfl
        have : (c :: rest).dropWhile (fun c => !isPySpace c) = rest.dropWhile (fun c => !isPySpace c) := by
          rw [List.dropWhile_cons, if_pos hc]
        rw [this]
        have h₃ : (c :: rest).length ≤ l.length := hd ▸ length_dropWhile_le' isPySpace l
        have := length_dropWhile_le' (fun c => !isPySpace c) rest
        simp only [List.length_cons] at h₃
        omega
      exact congrArg _ (splitWsF_congr n _ m (hlen.trans (by omega)) (hlen.trans (by omega)))

theorem takeWhile_eq_self_of_all (p : Char → Bool) :
    ∀ l : List Char, (∀ c ∈ l, p c = true) → l.takeWhile p = l
  | [], _ => rfl
  | c :: l, h => by
    rw [List.takeWhile_cons, if_pos (h c (List.mem_cons_self ..))]
    rw [takeWhile_eq_self_of_all p l (fun x hx => h x (List.mem_cons_of_mem _ hx))]

theorem dropWhile_eq_nil_of_all (p : Char → Bool) :
    ∀ l : List Char, (∀ c ∈ l, p c = true) → l.dropWhile p = []
  | [], _ => rfl
  | c :: l, h => by
    rw [List.dropWhile_cons, if_pos (h c (List.mem_cons_self ..))]
    exact dropWhile_eq_nil_of_all p l (fun x hx => h x (List.mem_cons_of_mem _ hx))

theorem takeWhile_append_cons_of_neg (p : Char → Bool) (x : Char) (t : List Char)
    (hx : p x = false) :
    ∀ w : List Char, (∀ c ∈ w, p c = true) → (w ++ x :: t).takeWhile p = w
  | [], _ => by simp [List.takeWhile_cons, hx]
  | c :: w, h => by
    rw [List.cons_append, List.takeWhile_cons, if_pos (h c (List.mem_cons_self ..))]
    rw [takeWhile_append_cons_of_neg p x t hx w (fun y hy => h y (List.mem_cons_of_mem _ hy))]

theorem dropWhile_append_cons_of_neg (p : Char → Bool) (x : Char) (t : List Char)
    (hx : p x = false) :
    ∀ w : List Char, (∀ c ∈ w, p c = true) → (w ++ x :: t).dropWhile p = x :: t
  | [], _ => by simp [List.dropWhile_cons, hx]
  | c :: w, h => by
    rw [List.cons_append, List.dropWhile_cons, if_pos (h c (List.mem_cons_self ..))]
    exact dropWhile_append_cons_of_neg p x t hx w (fun y hy => h y (List.mem_cons_of_mem _ hy))

/-- The head of a join of good words is the head of the first word. -/
theorem joinSpL_head : ∀ ws : List (List Char), ws ≠ [] → (∀ w ∈ ws, GoodWordL w) →
    ∃ c t, joinSpL ws = c :: t ∧ isPySpace c = false
  | [], h, _ => absurd rfl h
  | [w], _, hg => by
    obtain ⟨hne, hns⟩ := hg w (List.mem_cons_self ..)
    cases w with
    | nil => exact absurd rfl hne
    | cons c t => exact ⟨c, t, rfl, hns c (List.mem_cons_self ..)⟩
  | w :: v :: ws, _, hg => by
    obtain ⟨hne, hns⟩ := hg w (List.mem_cons_self ..)
    cases w with
    | nil => exact absurd rfl hne
    | cons c t =>
      exact ⟨c, t ++ ' ' :: joinSpL (v :: ws), rfl, hns c (List.mem_cons_self ..)⟩

/-- Words produced by `splitWsF` are non-empty and whitespace-free. -/
theorem splitWsF_good : ∀ (fuel : Nat) (l : List Char), ∀ w ∈ splitWsF fuel l, GoodWordL w
  | 0, l => by
    intro w hw
    cases hw
  | n + 1, l => by
    intro w hw
    unfold splitWsF at hw
    cases hd : l.dropWhile isPySpace with
    | nil =>
      rw [hd] at hw
      cases hw
    | cons c rest =>
      rw [hd] at hw
      rcases List.mem_cons.mp hw with hwh | hwt
      · subst hwh
        have hc : (!isPySpace c) = true := by
          rw [dropWhile_head_false isPySpace l c rest hd]
          rfl
      
        constructor
        · rw [List.takeWhile_cons, if_pos hc]
          exact List.cons_ne_nil _ _
        · intro x hx
          simpa using List.mem_takeWhile_imp hx
      · exact splitWsF_good n _ w hwt

/-- A leading space does not change word splitting (given enough fuel for the
tail-step bookkeeping). -/
theorem splitWsF_cons_space (n : Nat) (J : List Char) :
    splitWsF (n + 1) (' ' :: J) = splitWsF (n + 1) J := by
  show splitWsF (n + 1) (' ' :: J) = splitWsF (n + 1) J
  unfold splitWsF
  have h : (' ' :: J).dropWhile isPySpace = J.dropWhile isPySpace := by
    rw [List.dropWhile_cons, if_pos (by decide)]
  rw [h]

/-- Splitting a space-join of good words recovers exactly those words. -/
theorem splitWsF_join : ∀ (wss : List (List Char)), (∀ w ∈ wss, GoodWordL w) →
    ∀ fuel, (joinSpL wss).length ≤ fuel → splitWsF fuel (joinSpL wss) = wss
  | [], _, fuel, _ => splitWsF_nil fuel
  | [w], hg, fuel, hf => by
    obtain ⟨hne, hns⟩ := hg w (List.mem_cons_self ..)
    cases w with
    | nil => exact absurd rfl hne
    | cons c t =>
      have hlen : t.length + 1 ≤ fuel := by simpa [joinSpL] using hf
      obtain ⟨n, rfl⟩ : ∃ n, fuel = n + 1 := ⟨fuel - 1, by omega⟩
      show splitWsF (n + 1) (c :: t) = [c :: t]
      unfold splitWsF
      have hall : ∀ x ∈ c :: t, (fun c => !isPySpace c) x = true := by
        intro x hx
        show (!isPySpace x) = true
        rw [hns x hx]
        rfl
      have hd : (c :: t).dropWhile isPySpace = c :: t := by
        rw [List.dropWhile_cons, if_neg]
        rw [hns c (List.mem_cons_self ..)]
        exact Bool.false_ne_true
      rw [hd]
      show List.takeWhile (fun c => !isPySpace c) (c :: t)
          :: splitWsF n (List.dropWhile (fun c => !isPySpace c) (c :: t)) = [c :: t]
      rw [takeWhile_eq_self_of_all _ _ hall, dropWhile_eq_nil_of_all _ _ hall, splitWsF_nil]
  | w :: v :: ws, hg, fuel, hf => by
    obtain ⟨hne, hns⟩ := hg w (List.mem_cons_self ..)
    have hgtail : ∀ u ∈ v :: ws, GoodWordL u := fun u hu => hg u (List.mem_cons_of_mem _ hu)
    cases w with
    | nil => exact absurd rfl hne
    | cons c t =>
      have hform : joinSpL ((c :: t) :: v :: ws)
          = c :: (t ++ ' ' :: joinSpL (v :: ws)) := rfl
      rw [hform] at hf ⊢
      simp only [List.length_cons, List.length_append] at hf
      obtain ⟨n, rfl⟩ : ∃ n, fuel = n + 1 := ⟨fuel - 1, by omega⟩
      unfold splitWsF
      have hd : (c :: (t ++ ' ' :: joinSpL (v :: ws))).dropWhile isPySpace
          = c :: (t ++ ' ' :: joinSpL (v :: ws)) := by
        rw [List.dropWhile_cons, if_neg]
        rw [hns c (List.mem_cons_self ..)]
        exact Bool.false_ne_true
      rw [hd]
      show List.takeWhile (fun c => !isPySpace c) (c :: (t ++ ' ' :: joinSpL (v :: ws)))
          :: splitWsF n (List.dropWhile (fun c => !isPySpace c) (c :: (t ++ ' ' :: joinSpL (v :: ws))))
          = (c :: t) :: v :: ws
      have hallw : ∀ x ∈ c :: t, (fun c => !isPySpace c) x = true := by
        intro x hx
        show (!isPySpace x) = true
        rw [hns x hx]
        rfl
      have hsp : (fun c => !isPySpace c) ' ' = false := by decide
      have htake : (c :: (t ++ ' ' :: joinSpL (v :: ws))).takeWhile (fun c => !isPySpace c)
          = c :: t := by
        rw [show c :: (t ++ ' ' :: joinSpL (v :: ws)) = (c :: t) ++ ' ' :: joinSpL (v :: ws) from rfl]
        exact takeWhile_append_cons_of_neg _ _ _ hsp (c :: t) hallw
      have hdrop : (c :: (t ++ ' ' :: joinSpL (v :: ws))).dropWhile (fun c => !isPySpace c)
          = ' ' :: joinSpL (v :: ws) := by
        rw [show c :: (t ++ ' ' :: joinSpL (v :: ws)) = (c :: t) ++ ' ' :: joinSpL (v :: ws) from rfl]
        exact dropWhile_append_cons_of_neg _ _ _ hsp (c :: t) hallw
      rw [htake, hdrop]
      obtain ⟨m, rfl⟩ : ∃ m, n = m + 1 := ⟨n - 1, by omega⟩
      rw [splitWsF_cons_space m (joinSpL (v :: ws))]
      rw [splitWsF_join (v :: ws) hgtail (m + 1) (by omega)]

theorem string_mk_toList (s : String) : String.mk s.toList = s := rfl

theorem string_ne_empty_of_toList_cons {s : String} {c : Char} {t : List Char}
    (h : s.toList = c :: t) : s ≠ "" := by
  intro he
  rw [he] at h
  cases h

/-- The last character of a join of good words is not whitespace. -/
theorem joinSpL_rev : ∀ ws : List (List Char), ws ≠ [] → (∀ w ∈ ws, GoodWordL w) →
    ∃ c t, (joinSpL ws).reverse = c :: t ∧ isPySpace c = false
  | [], h, _ => absurd rfl h
  | [w], _, hg => by
    obtain ⟨hne, hns⟩ := hg w (List.mem_cons_self ..)
    cases hr : w.reverse with
    | nil => exact absurd (List.reverse_eq_nil_iff.mp hr) hne
    | cons c t =>
      refine ⟨c, t, hr, hns c ?_⟩
      rw [← List.mem_reverse, hr]
      exact List.mem_cons_self ..
  | w :: v :: ws, _, hg => by
    obtain ⟨c, t, hct, hc⟩ := joinSpL_rev (v :: ws) (List.cons_ne_nil _ _)
      (fun u hu => hg u (List.mem_cons_of_mem _ hu))
    refine ⟨c, t ++ ' ' :: w.reverse, ?_, hc⟩
    show (w ++ ' ' :: joinSpL (v :: ws)).reverse = c :: (t ++ ' ' :: w.reverse)
    rw [List.reverse_append, List.reverse_cons, hct]
    simp

/-- Stripping a join of good words is the identity. -/
theorem pyStripL_joinSpL : ∀ ws : List (List Char), (∀ w ∈ ws, GoodWordL w) →
    pyStripL (joinSpL ws) = joinSpL ws := by
  intro ws hg
  cases hws : ws with
  | nil => rfl
  | cons w rest =>
    obtain ⟨c, t, hct, hc⟩ := joinSpL_head ws (by rw [hws]; exact List.cons_ne_nil _ _) hg
    obtain ⟨c', t', hct', hc'⟩ := joinSpL_rev ws (by rw [hws]; exact List.cons_ne_nil _ _) hg
    rw [← hws]
    unfold pyStripL
    have h₁ : (joinSpL ws).dropWhile isPySpace = joinSpL ws := by
      rw [hct, List.dropWhile_cons, if_neg]
      rw [hc]
      exact Bool.false_ne_true
    rw [h₁]
    have h₂ : (joinSpL ws).reverse.dropWhile isPySpace = (joinSpL ws).reverse := by
      rw [hct', List.dropWhile_cons, if_neg]
      rw [hc']
      exact Bool.false_ne_true
    rw [h₂, List.reverse_reverse]

/-- Recovering the words of a space-join of good words. -/
theorem pyWords_spaceJoin (ws : List String) (h : ∀ w ∈ ws, GoodWordL w.toList) :
    pyWords (spaceJoin ws) = ws := by
  unfold pyWords
  have hgood : ∀ w ∈ ws.map String.toList, GoodWordL w := by
    intro w hw
    obtain ⟨s, hs, rfl⟩ := List.mem_map.mp hw
    exact h s hs
  rw [toList_spaceJoin, splitWsF_join (ws.map String.toList) hgood _ le_rfl, List.map_map]
  have hcomp : String.mk ∘ String.toList = id := funext (fun s => string_mk_toList s)
  rw [hcomp, List.map_id]

/-- Stripping a space-join of good words is the identity. -/
theorem pyStrip_spaceJoin (ws : List String) (h : ∀ w ∈ ws, GoodWordL w.toList) :
    pyStrip (spaceJoin ws) = spaceJoin ws := by
  unfold pyStrip
  have hgood : ∀ w ∈ ws.map String.toList, GoodWordL w := by
    intro w hw
    obtain ⟨s, hs, rfl⟩ := List.mem_map.mp hw
    exact h s hs
  rw [toList_spaceJoin, pyStripL_joinSpL _ hgood, ← toList_spaceJoin, string_mk_toList]

/-- A space-join of a non-empty list of good words is a non-empty string. -/
theorem spaceJoin_ne_empty (ws : List String) (hne : ws ≠ [])
    (h : ∀ w ∈ ws, GoodWordL w.toList) : spaceJoin ws ≠ "" := by
  have hgood : ∀ w ∈ ws.map String.toList, GoodWordL w := by
    intro w hw
    obtain ⟨s, hs, rfl⟩ := List.mem_map.mp hw
    exact h s hs
  obtain ⟨c, t, hct, -⟩ := joinSpL_head (ws.map String.toList)
    (by intro habs; exact hne (List.map_eq_nil_iff.mp habs)) hgood
  exact string_ne_empty_of_toList_cons (by rw [toList_spaceJoin, hct])

/-- Every word of `pyWords s` is good. -/
theorem pyWords_good (s : String) : ∀ w ∈ pyWords s, GoodWordL w.toList := by
  intro w hw
  obtain ⟨l, hl, rfl⟩ := List.mem_map.mp hw
  exact splitWsF_good _ _ l hl

theorem filterMap_eq_map_of_some {α β : Type} (f : α → Option β) (g : α → β) :
    ∀ l : List α, (∀ a ∈ l, f a = some (g a)) → l.filterMap f = l.map g
  | [], _ => rfl
  | a :: l, h => by
    rw [List.filterMap_cons, h a (List.mem_cons_self ..), List.map_cons]
    rw [filterMap_eq_map_of_some f g l (fun x hx => h x (List.mem_cons_of_mem _ hx))]

/-! ## Vector store (`src/core/vector_store.py`, `VectorStore`) -/

namespace VectorStore

/-- `VectorStoreConfig.chunk_size` default (`config/config.py`). -/
def configChunkSize : Nat := 500

/-- `VectorStoreConfig.overlap` default (`config/config.py`). -/
def configOverlap : Nat := 50

/-- Python's `x or default` used to resolve the optional integer parameters of
`chunk_text`: `None` *and* `0` (falsy) fall back to the configured default. -/
def pyOrDefault : Option Nat → Nat → Nat
  | none, d => d
  | some n, d => if n = 0 then d else n

/-- The word slices `words[i:i+cs]` for `i in range(0, len(words), step)` with
`step ≥ 1`, written as a fuel recursion (`windowsF cs step ws.length ws`): each
step emits the slice at the current position and drops `step` words. -/
def windowsF (cs step : Nat) : Nat → List String → List (List String)
  | 0, _ => []
  | _ + 1, [] => []
  | fuel + 1, ws@(_ :: _) => ws.take cs :: windowsF cs step fuel (ws.drop step)

/-- The word windows of `chunk_text`. -/
def windows (cs step : Nat) (ws : List String) : List (List String) :=
  windowsF cs step ws.length ws

/-- `VectorStore.chunk_text` (`vector_store.py`): split the text into words,
slice windows of `chunk_size` words advancing by `chunk_size - overlap`, join
each window with single spaces, and keep the stripped chunk when non-blank.
`Except.error` models the `ValueError` Python raises from `range(0, n, 0)`
when the resolved `chunk_size` equals the resolved `overlap`; a negative step
(resolved `chunk_size` < resolved `overlap`) makes the `range` empty, hence no
chunks. -/
def chunk_text (text : String) (chunk_size? : Option Nat := none)
    (overlap? : Option Nat := none) : Except String (List String) :=
  let chunk_size := pyOrDefault chunk_size? configChunkSize
  let overlap := pyOrDefault overlap? configOverlap
  let words := pyWords text
  if chunk_size = overlap then .error "ValueError: range() arg 3 must not be zero"
  else if chunk_size < overlap then .ok []
  else
    .ok ((windows chunk_size (chunk_size - overlap) words).filterMap (fun w =>
      let chunk := spaceJoin w
      if pyStrip chunk ≠ "" then some (pyStrip chunk) else none))

theorem windowsF_nil (cs step : Nat) : ∀ fuel, windowsF cs step fuel [] = []
  | 0 => rfl
  | _ + 1 => rfl

/-- Fuel-irrelevance for `windowsF` when the step is positive. -/
theorem windowsF_congr (cs step : Nat) (hstep : 1 ≤ step) :
    ∀ (f₁ : Nat) (ws : List String) (f₂ : Nat),
      ws.length ≤ f₁ → ws.length ≤ f₂ → windowsF cs step f₁ ws = windowsF cs step f₂ ws
  | 0, ws, f₂ => by
    intro h₁ _
    rw [List.length_eq_zero.mp (Nat.le_zero.mp h₁)]
    exact (windowsF_nil cs step f₂).symm
  | _ + 1, ws, 0 => by
    intro _ h₂
    rw [List.length_eq_zero.mp (Nat.le_zero.mp h₂)]
    exact windowsF_nil cs step _
  | n + 1, ws, m + 1 => by
    intro h₁ h₂
    cases ws with
    | nil => rfl
    | cons a t =>
      show (a :: t).take cs :: windowsF cs step n ((a :: t).drop step)
          = (a :: t).take cs :: windowsF cs step m ((a :: t).drop step)
      have hlen : ((a :: t).drop step).length ≤ (a :: t).length - 1 := by
        rw [List.length_drop]
        simp only [List.length_cons]
        omega
      simp only [List.length_cons] at h₁ h₂
      exact congrArg _ (windowsF_congr cs step hstep n _ m
        (hlen.trans (by simp only [List.length_cons]; omega))
        (hlen.trans (by simp only [List.length_cons]; omega)))

/-- Unfolding a non-empty window computation. -/
theorem windows_cons (cs step : Nat) (hstep : 1 ≤ step) (ws : List String) (hne : ws ≠ []) :
    windows cs step ws = ws.take cs :: windows cs step (ws.drop step) := by
  cases ws with
  | nil => exact absurd rfl hne
  | cons a t =>
    unfold windows
    have hlen : ((a :: t).drop step).length = t.length + 1 - step := by
      rw [List.length_drop]
      rfl
    rw [hlen]
    show (a :: t).take cs :: windowsF cs step t.length ((a :: t).drop step)
        = (a :: t).take cs :: windowsF cs step (t.length + 1 - step) ((a :: t).drop step)
    exact congrArg _ (windowsF_congr cs step hstep t.length _ (t.length + 1 - step)
      (by rw [hlen]; omega) (by rw [hlen]))

/-- Window elements: non-empty (when `1 ≤ cs`), drawn from the input words,
and at most `cs` long. -/
theorem windows_mem (cs step : Nat) (hcs : 1 ≤ cs) :
    ∀ (fuel : Nat) (ws : List String), ∀ w ∈ windowsF cs step fuel ws,
      w ≠ [] ∧ (∀ x ∈ w, x ∈ ws) ∧ w.length ≤ cs
  | 0, ws => by
    intro w hw
    cases hw
  | _ + 1, [] => by
    intro w hw
    cases hw
  | fuel + 1, a :: t => by
    intro w hw
    rcases List.mem_cons.mp hw with hwh | hwt
    · subst hwh
      refine ⟨?_, fun x hx => List.mem_of_mem_take hx, ?_⟩
      · cases cs with
        | zero => omega
        | succ k => exact List.cons_ne_nil _ _
      · rw [List.length_take]
        omega
    · obtain ⟨h₁, h₂, h₃⟩ := windows_mem cs step hcs fuel ((a :: t).drop step) w hwt
      exact ⟨h₁, fun x hx => List.mem_of_mem_drop (h₂ x hx), h₃⟩

/-- Dropping the first `ov` words of every window and concatenating yields the
original words with the first `ov` dropped. -/
theorem windows_drop_flatten (cs step ov : Nat) (hstep : 1 ≤ step) (hso : step + ov = cs) :
    ∀ (n : Nat) (ws : List String), ws.length ≤ n →
      ((windows cs step ws).map (fun w => w.drop ov)).flatten = ws.drop ov
  | 0, ws => by
    intro h
    rw [List.length_eq_zero.mp (Nat.le_zero.mp h), List.drop_nil]
    rfl
  | n + 1, ws => by
    intro h
    cases hws : ws with
    | nil =>
      rw [List.drop_nil]
      rfl
    | cons a t =>
      rw [← hws]
      have hne : ws ≠ [] := by rw [hws]; exact List.cons_ne_nil _ _
      rw [windows_cons cs step hstep ws hne, List.map_cons, List.flatten_cons]
      rw [windows_drop_flatten cs step ov hstep hso n (ws.drop step)
        (by rw [List.length_drop]; rw [hws] at h ⊢; simp only [List.length_cons] at h ⊢; omega)]
      rw [List.drop_drop, List.drop_take, hso]
      have h₂ : cs - ov = step := by omega
      have h₃ : List.drop cs ws = List.drop step (List.drop ov ws) := by
        rw [List.drop_drop]
        congr 1
        omega
      rw [h₂, h₃, List.take_append_drop]

end VectorStore

namespace VectorStore

/-- With explicit positive parameters `overlap < chunk_size`, `chunk_text`
succeeds and produces exactly the space-joins of the word windows. -/
theorem chunk_text_windows (text : String) (cs ov : Nat) (h0 : 0 < ov) (hlt : ov < cs) :
    chunk_text text (some cs) (some ov)
      = .ok ((windows cs (cs - ov) (pyWords text)).map spaceJoin) := by
  unfold chunk_text
  have hcs : pyOrDefault (some cs) configChunkSize = cs := by
    show (if cs = 0 then configChunkSize else cs) = cs
    rw [if_neg (by omega)]
  have hov : pyOrDefault (some ov) configOverlap = ov := by
    show (if ov = 0 then configOverlap else ov) = ov
    rw [if_neg (by omega)]
  rw [hcs, hov, if_neg (by omega), if_neg (by omega)]
  refine congrArg _ (filterMap_eq_map_of_some _ _ _ ?_)
  intro w hw
  obtain ⟨hne, hsub, -⟩ := windows_mem cs (cs - ov) (by omega) _ (pyWords text) w hw
  have hgood : ∀ x ∈ w, GoodWordL x.toList := fun x hx => pyWords_good text x (hsub x hx)
  have hstrip : pyStrip (spaceJoin w) = spaceJoin w := pyStrip_spaceJoin w hgood
  have hne' : spaceJoin w ≠ "" := spaceJoin_ne_empty w hne hgood
  show (if pyStrip (spaceJoin w) ≠ "" then some (pyStrip (spaceJoin w)) else none)
      = some (spaceJoin w)
  rw [hstrip, if_pos hne']

end VectorStore

/-- The reconstruction operation named by the claim on `chunk_text`: the
concatenation of the chunks' word sequences, dropping the first `overlap`
words of every chunk after the first. -/
def reconstructWords (overlap : Nat) : List String → List String
  | [] => []
  | c :: rest => pyWords c ++ (rest.map (fun d => (pyWords d).drop overlap)).flatten

/-- C7 counterexample: `chunk_text "a b" 10 0` satisfies `overlap <
chunk_size` as passed, but Python's `or`-defaulting replaces the falsy
`overlap = 0` by the configured default `50`, making the window step
`10 - 50` negative, the `range` empty, and the chunk list empty — so the two
words `"a"`, `"b"` of the non-empty text are not reconstructed. -/
theorem C7_counterexample :
    VectorStore.chunk_text "a b" (some 10) (some 0) = .ok [] ∧
    pyWords "a b" = ["a", "b"] := ⟨rfl, rfl⟩

/-- C7 (amended): for every non-empty text and parameters with
`0 < overlap < chunk_size` (a zero `overlap` argument would be replaced by the
configured default 50 by Python's `or`-defaulting), `chunk_text` returns
chunks such that (a) each chunk contains at most `chunk_size` words, and
(b) the concatenation of the chunks' word sequences, dropping the first
`overlap` words of every chunk after the first, reconstructs the original
word sequence of the text. -/
theorem C7_chunk_text_amended (text : String) (cs ov : Nat)
    (_htext : text ≠ "") (h0 : 0 < ov) (hlt : ov < cs) :
    ∃ chunks, VectorStore.chunk_text text (some cs) (some ov) = .ok chunks ∧
      (∀ c ∈ chunks, (pyWords c).length ≤ cs) ∧
      reconstructWords ov chunks = pyWords text := by
  refine ⟨_, VectorStore.chunk_text_windows text cs ov h0 hlt, ?_, ?_⟩
  · intro c hc
    obtain ⟨w, hw, rfl⟩ := List.mem_map.mp hc
    obtain ⟨hne, hsub, hlen⟩ := VectorStore.windows_mem cs (cs - ov) (by omega) _
      (pyWords text) w hw
    have hgood : ∀ x ∈ w, GoodWordL x.toList := fun x hx => pyWords_good text x (hsub x hx)
    rw [pyWords_spaceJoin w hgood]
    exact hlen
  · set ws := pyWords text with hwsdef
    have hstep : 1 ≤ cs - ov := by omega
    cases hws : ws with
    | nil =>
      rw [show VectorStore.windows cs (cs - ov) ([] : List String) = [] from rfl]
      rfl
    | cons a t =>
      rw [← hws]
      have hne : ws ≠ [] := by rw [hws]; exact List.cons_ne_nil _ _
      rw [VectorStore.windows_cons cs (cs - ov) hstep ws hne, List.map_cons]
      show pyWords (spaceJoin (ws.take cs)) ++
          (((VectorStore.windows cs (cs - ov) (ws.drop (cs - ov))).map spaceJoin).map
            (fun d => (pyWords d).drop ov)).flatten = ws
      have hgood : ∀ x ∈ ws, GoodWordL x.toList := fun x hx => pyWords_good text x (hwsdef ▸ hx)
      have htakegood : ∀ x ∈ ws.take cs, GoodWordL x.toList :=
        fun x hx => hgood x (List.mem_of_mem_take hx)
      rw [pyWords_spaceJoin (ws.take cs) htakegood, List.map_map]
      have hmapeq : ((VectorStore.windows cs (cs - ov) (ws.drop (cs - ov))).map
            ((fun d => (pyWords d).drop ov) ∘ spaceJoin))
          = (VectorStore.windows cs (cs - ov) (ws.drop (cs - ov))).map (fun w => w.drop ov) := by
        refine List.map_congr_left ?_
        intro w hw
        obtain ⟨hne', hsub, -⟩ := VectorStore.windows_mem cs (cs - ov) (by omega) _ _ w hw
        have hwgood : ∀ x ∈ w, GoodWordL x.toList :=
          fun x hx => hgood x (List.mem_of_mem_drop (hsub x hx))
        show (pyWords (spaceJoin w)).drop ov = w.drop ov
        rw [pyWords_spaceJoin w hwgood]
      rw [hmapeq]
      rw [VectorStore.windows_drop_flatten cs (cs - ov) ov hstep (by omega)
        (ws.drop (cs - ov)).length _ le_rfl]
      rw [List.drop_drop]
      have h₃ : cs - ov + ov = cs := by omega
      rw [h₃, List.take_append_drop]

/-- C7 witness: `C7_chunk_text_amended` applied at the concrete text
`"un deux trois"` with `chunk_size = 2`, `overlap = 1`. -/
theorem C7_chunk_text_amended_witness :
    ∃ chunks, VectorStore.chunk_text "un deux trois" (some 2) (some 1) = .ok chunks ∧
      (∀ c ∈ chunks, (pyWords c).length ≤ 2) ∧
      reconstructWords 1 chunks = pyWords "un deux trois" :=
  C7_chunk_text_amended "un deux trois" 2 1 (by decide) (by decide) (by decide)

/-! ## Document configuration and search (`config/config.py`, `vector_store.py`) -/

/-- `DocumentConfig` (`config/config.py`). -/
structure DocumentConfig where
  name : String
  pdf_path : String
  processed_json_path : String
  description : String
  language : String := "fr"
  content_type : String := "menu"
  deriving DecidableEq

/-- A hit returned by one ChromaDB collection query, as consumed by
`VectorStore.search`: the stored chunk text, the `page` metadata field used
downstream by `get_context`, and the similarity distance.  ChromaDB returns
parallel `documents` / `metadatas` / `distances` lists; they are modelled as
one list of records, so every hit carries a distance (the source's
`None`-distance fallback is for a reply with no `distances` entry, which the
backend does not produce; with it, Python's sort would raise comparing `None`
to floats). -/
structure CollHit where
  content : String
  page : Option Nat
  distance : Rat
  deriving DecidableEq

/-- One entry of the `results` list of `VectorStore.search`. -/
structure SearchHit where
  content : String
  page : Option Nat
  distance : Rat
  document_name : String
  deriving DecidableEq

/-- The return value of `VectorStore.search`. -/
structure SearchResponse where
  query : String
  searched_documents : List String
  results : List SearchHit
  deriving DecidableEq

/-- The `document_names` argument threaded through `search`, `get_context`
and `answer_question`: Python `None`, a single string, or a list of names. -/
inductive DocNames
  | noneName
  | one (s : String)
  | many (l : List String)
  deriving DecidableEq

/-- `document_names is None`. -/
def DocNames.isNoneName : DocNames → Bool
  | .noneName => true
  | _ => false

namespace VectorStore

/-- The per-collection hits of `VectorStore.search`, merged in document order:
each target document's collection is queried (a failing collection is logged
and skipped — the `.error` branch) and each hit is tagged with its owning
document name. -/
def collectedHits (documents : List DocumentConfig)
    (collQuery : String → Nat → Except String (List CollHit))
    (document_names : DocNames) (n_results : Nat) : List String × List SearchHit :=
  let search_documents := match document_names with
    | .noneName => documents.map (·.name)
    | .one s => [s]
    | .many l => l
  (search_documents,
   (search_documents.map (fun doc_name =>
      match collQuery doc_name n_results with
      | .ok hits => hits.map (fun h =>
          { content := h.content, page := h.page, distance := h.distance,
            document_name := doc_name : SearchHit })
      | .error _ => [])).flatten)

/-- `VectorStore.search` (`vector_store.py`): resolve the target documents,
collect and tag the per-collection hits, sort them ascending by distance
(Python's stable `list.sort(key=...)`), and truncate to `n_results`.
`collQuery` stands for `collection.query(query_embeddings=[...], n_results=...)`
on the named document's collection (the query embedding, computed once by
`_generate_ollama_embedding`, is folded into this black box). -/
def search (documents : List DocumentConfig)
    (collQuery : String → Nat → Except String (List CollHit))
    (query : String) (document_names : DocNames := .noneName) (n_results : Nat := 5) :
    SearchResponse :=
  let sd := collectedHits documents collQuery document_names n_results
  let sorted := sd.2.mergeSort (fun a b => decide (a.distance ≤ b.distance))
  { query := query, searched_documents := sd.1, results := sorted.take n_results }

end VectorStore

/-- C2 counterexample: with one configured document whose collection returns
no hits and `n_results = 1`, `search` returns zero results, not "exactly
`n_results` entries". -/
theorem C2_counterexample :
    (VectorStore.search [⟨"marco_fuso", "docs/m.pdf", "data/m.json", "Marco Fuso - Menu", "fr", "menu"⟩]
        (fun _ _ => .ok []) "pizza margherita" .noneName 1).results.length ≠ 1 := by
  show (List.take 1 ((VectorStore.collectedHits
      [⟨"marco_fuso", "docs/m.pdf", "data/m.json", "Marco Fuso - Menu", "fr", "menu"⟩]
      (fun _ _ => .ok []) .noneName 1).2.mergeSort
        (fun a b => decide (a.distance ≤ b.distance)))).length ≠ 1
  rw [List.length_take, List.length_mergeSort]
  decide

/-- C2 (amended): for every query and every `n_results`, the `results` list of
`VectorStore.search` is sorted ascending by distance, has length
`min n_results (number of collected hits)` (exactly `n_results` when at least
that many hits were collected, fewer otherwise), and together with the rest of
the sorted list is a permutation of the per-collection hits merged in document
order. -/
theorem C2_search_sorted_truncated (documents : List DocumentConfig)
    (collQuery : String → Nat → Except String (List CollHit))
    (query : String) (document_names : DocNames) (n_results : Nat) :
    (VectorStore.search documents collQuery query document_names n_results).results.Sorted
        (fun a b => a.distance ≤ b.distance) ∧
    (VectorStore.search documents collQuery query document_names n_results).results.length
      = min n_results
          (VectorStore.collectedHits documents collQuery document_names n_results).2.length ∧
    ∃ rest,
      ((VectorStore.search documents collQuery query document_names n_results).results
        ++ rest).Perm
        (VectorStore.collectedHits documents collQuery document_names n_results).2 := by
  have htrans : ∀ a b c : SearchHit, decide (a.distance ≤ b.distance) = true →
      decide (b.distance ≤ c.distance) = true → decide (a.distance ≤ c.distance) = true := by
    intro a b c h₁ h₂
    rw [decide_eq_true_iff] at h₁ h₂ ⊢
    exact le_trans h₁ h₂
  have htotal : ∀ a b : SearchHit,
      (decide (a.distance ≤ b.distance) || decide (b.distance ≤ a.distance)) = true := by
    intro a b
    rcases le_total a.distance b.distance with h | h
    · rw [decide_eq_true_iff.mpr h, Bool.true_or]
    · rw [decide_eq_true_iff.mpr h, Bool.or_true]
  set merged := (VectorStore.collectedHits documents collQuery document_names n_results).2
    with hmerged
  have hsortedlist : (merged.mergeSort (fun a b => decide (a.distance ≤ b.distance))).Pairwise
      (fun a b => decide (a.distance ≤ b.distance) = true) :=
    List.sorted_mergeSort htrans htotal merged
  refine ⟨?_, ?_, ?_⟩
  · have := List.Pairwise.sublist
      (List.take_sublist n_results (merged.mergeSort (fun a b => decide (a.distance ≤ b.distance))))
      hsortedlist
    exact this.imp (fun h => decide_eq_true_iff.mp h)
  · show (List.take n_results _).length = _
    rw [List.length_take, List.length_mergeSort]
  · refine ⟨(merged.mergeSort (fun a b => decide (a.distance ≤ b.distance))).drop n_results, ?_⟩
    show (List.take n_results _ ++ List.drop n_results _).Perm merged
    rw [List.take_append_drop]
    exact List.mergeSort_perm merged _

/-! ## Adding documents (`vector_store.py`, `VectorStore.add_document`) -/

/-- One section of a processed-document JSON file. -/
structure SectionJson where
  content : String
  page : Option Nat
  deriving DecidableEq

/-- A processed-document JSON file (`data/processed/{name}_processed.json`),
restricted to the fields `add_document` reads. -/
structure DocJson where
  source : Option String
  content_type : Option String
  language : Option String
  sections : List SectionJson
  deriving DecidableEq

/-- One chunk record written to a ChromaDB collection by `add_document`: the
generated id, the chunk text, its embedding, and the metadata fields of
`vector_store.py`.  Float embeddings are modelled as rationals. -/
structure StoredChunk where
  id : String
  content : String
  embedding : List Rat
  source : String
  document_name : String
  page : Nat
  chunk_index : Nat
  word_count : Nat
  content_type : String
  language : String
  deriving DecidableEq

namespace VectorStore

/-- `VectorStore._generate_ollama_embedding` (leading underscore dropped): on
any embedding failure, log and return the fixed `[0.0] * 1024` zero vector. -/
def generate_ollama_embedding (embed : String → Except String (List Rat))
    (text : String) : List Rat :=
  match embed text with
  | .ok e => e
  | .error _ => List.replicate 1024 0

/-- The records built for one section of `add_document`'s loop: skip falsy
(empty) content, chunk with the configured defaults, and build one record per
chunk — id `{document}_page_{page}_chunk_{j}`, embedding via
`generate_ollama_embedding` (zero vector on failure), and the source metadata.
`i` is the section's `enumerate` index, the fallback for a missing `page`. -/
def sectionRecords (embed : String → Except String (List Rat))
    (document_name : String) (data : DocJson) (i : Nat) (s : SectionJson) :
    Except String (List StoredChunk) :=
  if s.content == "" then .ok []
  else
    match chunk_text s.content with
    | .error e => .error e
    | .ok chunks => .ok (chunks.enum.map (fun jc =>
        { id := document_name ++ "_page_" ++ toString (s.page.getD i)
            ++ "_chunk_" ++ toString jc.1,
          content := jc.2,
          embedding := generate_ollama_embedding embed jc.2,
          source := data.source.getD "unknown",
          document_name := document_name,
          page := s.page.getD i,
          chunk_index := jc.1,
          word_count := (pyWords jc.2).length,
          content_type := data.content_type.getD "menu",
          language := data.language.getD "fr" }))

/-- `add_document`'s section loop (`for i, section in enumerate(...)`),
accumulating the flat record lists in order; an exception in any section
aborts the whole call. -/
def buildRecords (embed : String → Except String (List Rat))
    (document_name : String) (data : DocJson) :
    Nat → List SectionJson → Except String (List StoredChunk)
  | _, [] => .ok []
  | i, s :: rest =>
    match sectionRecords embed document_name data i s with
    | .error e => .error e
    | .ok rs =>
      match buildRecords embed document_name data (i + 1) rest with
      | .error e => .error e
      | .ok more => .ok (rs ++ more)

/-- The tail of `add_document` once the document is known, the JSON is loaded
and the collection is available: run the section loop (an exception yields
`False` via the outer `try/except`), then add the records and report `True`
when any were built, `False` otherwise. -/
def addDocumentCore (embed : String → Except String (List Rat))
    (data : DocJson) (document_name : String) : Bool × List StoredChunk :=
  match buildRecords embed document_name data 0 data.sections with
  | .error _ => (false, [])
  | .ok records => if records.isEmpty then (false, []) else (true, records)

/-- `VectorStore.add_document` (`vector_store.py`).  External effects are
parameters: `getCollection` stands for `get_or_create_collection`
(`.error` = the backing store raised, which the outer `try/except` converts
to `False`); `embed` stands for the Ollama embedding call; `jsonData` is the
parsed processed JSON, `none` when the file is missing.  Returns the success
flag paired with the records added to the collection (empty when nothing was
added).  An unknown document name makes `get_document_by_name` raise
`ValueError`, caught by the outer `try/except` — the first branch. -/
def add_document (documents : List DocumentConfig)
    (getCollection : String → Except String Unit)
    (embed : String → Except String (List Rat))
    (jsonData : Option DocJson) (document_name : String) : Bool × List StoredChunk :=
  match documents.find? (fun d => d.name == document_name) with
  | none => (false, [])
  | some _ =>
    match jsonData with
    | none => (false, [])
    | some data =>
      match getCollection document_name with
      | .error _ => (false, [])
      | .ok _ => addDocumentCore embed data document_name

/-- Sections with empty content contribute no records. -/
theorem buildRecords_empty_sections (embed : String → Except String (List Rat))
    (document_name : String) (data : DocJson) :
    ∀ (sections : List SectionJson) (i : Nat), (∀ s ∈ sections, s.content = "") →
      buildRecords embed document_name data i sections = .ok []
  | [], _, _ => rfl
  | s :: rest, i, h => by
    unfold buildRecords
    have hs : sectionRecords embed document_name data i s = .ok [] := by
      unfold sectionRecords
      rw [if_pos]
      rw [h s (List.mem_cons_self ..)]
      rfl
    rw [hs, buildRecords_empty_sections embed document_name data rest (i + 1)
      (fun x hx => h x (List.mem_cons_of_mem _ hx))]
    rfl

/-- The id/content skeleton of a section's records, and whether the section
raises, do not depend on the embedding function. -/
theorem sectionRecords_embed_congr (embed₁ embed₂ : String → Except String (List Rat))
    (document_name : String) (data : DocJson) (i : Nat) (s : SectionJson) :
    (sectionRecords embed₁ document_name data i s).map (List.map (fun r => (r.id, r.content)))
      = (sectionRecords embed₂ document_name data i s).map
          (List.map (fun r => (r.id, r.content))) := by
  unfold sectionRecords
  split
  · rfl
  · cases chunk_text s.content with
    | error e => rfl
    | ok chunks =>
      show Except.ok ((chunks.enum.map _).map _) = Except.ok ((chunks.enum.map _).map _)
      rw [List.map_map, List.map_map]
      rfl

/-- The id/content skeleton of the whole record list, and whether the loop
raises, do not depend on the embedding function. -/
theorem buildRecords_embed_congr (embed₁ embed₂ : String → Except String (List Rat))
    (document_name : String) (data : DocJson) :
    ∀ (sections : List SectionJson) (i : Nat),
      (buildRecords embed₁ document_name data i sections).map
          (List.map (fun r => (r.id, r.content)))
        = (buildRecords embed₂ document_name data i sections).map
            (List.map (fun r => (r.id, r.content)))
  | [], _ => rfl
  | s :: rest, i => by
    have h₁ := sectionRecords_embed_congr embed₁ embed₂ document_name data i s
    have h₂ := buildRecords_embed_congr embed₁ embed₂ document_name data rest (i + 1)
    unfold buildRecords
    cases hs₁ : sectionRecords embed₁ document_name data i s with
    | error e =>
      rw [hs₁] at h₁
      cases hs₂ : sectionRecords embed₂ document_name data i s with
      | error e' =>
        rw [hs₂] at h₁
        cases h₁
        rfl
      | ok rs₂ =>
        rw [hs₂] at h₁
        cases h₁
    | ok rs₁ =>
      rw [hs₁] at h₁
      cases hs₂ : sectionRecords embed₂ document_name data i s with
      | error e' =>
        rw [hs₂] at h₁
        cases h₁
      | ok rs₂ =>
        rw [hs₂] at h₁
        cases hb₁ : buildRecords embed₁ document_name data (i + 1) rest with
        | error e =>
          rw [hb₁] at h₂
          cases hb₂ : buildRecords embed₂ document_name data (i + 1) rest with
          | error e' =>
            rw [hb₂] at h₂
            cases h₂
            rfl
          | ok more₂ =>
            rw [hb₂] at h₂
            cases h₂
        | ok more₁ =>
          rw [hb₁] at h₂
          cases hb₂ : buildRecords embed₂ document_name data (i + 1) rest with
          | error e' =>
            rw [hb₂] at h₂
            cases h₂
          | ok more₂ =>
            rw [hb₂] at h₂
            show Except.ok ((rs₁ ++ more₁).map _) = Except.ok ((rs₂ ++ more₂).map _)
            rw [List.map_append, List.map_append]
            injection h₁ with h₁'
            injection h₂ with h₂'
            rw [h₁', h₂']

/-- Every stored record's embedding is the result of `generate_ollama_embedding`
on its own content. -/
theorem buildRecords_embedding (embed : String → Except String (List Rat))
    (document_name : String) (data : DocJson) :
    ∀ (sections : List SectionJson) (i : Nat) (l : List StoredChunk),
      buildRecords embed document_name data i sections = .ok l →
      ∀ r ∈ l, r.embedding = generate_ollama_embedding embed r.content
  | [], _, l => by
    intro h r hr
    cases h
    cases hr
  | s :: rest, i, l => by
    intro h r hr
    unfold buildRecords at h
    cases hs : sectionRecords embed document_name data i s with
    | error e =>
      rw [hs] at h
      cases h
    | ok rs =>
      rw [hs] at h
      cases hb : buildRecords embed document_name data (i + 1) rest with
      | error e =>
        rw [hb] at h
        cases h
      | ok more =>
        rw [hb] at h
        injection h with h'
        subst h'
        rcases List.mem_append.mp hr with hrs | hmore
        · unfold sectionRecords at hs
          split at hs
          · cases hs
            cases hrs
          · cases hct : chunk_text s.content with
            | error e =>
              rw [hct] at hs
              cases hs
            | ok chunks =>
              rw [hct] at hs
              injection hs with hs'
              subst hs'
              obtain ⟨jc, -, rfl⟩ := List.mem_map.mp hrs
              rfl
        · exact buildRecords_embedding embed document_name data rest (i + 1) more hb r hmore

end VectorStore

theorem list_isEmpty_iff_eq_nil {α : Type} (l : List α) : l.isEmpty = true ↔ l = [] := by
  cases l <;> simp

namespace VectorStore

/-- `addDocumentCore` on a document with only empty sections fails. -/
theorem addDocumentCore_empty_sections (embed : String → Except String (List Rat))
    (data : DocJson) (name : String) (h : ∀ s ∈ data.sections, s.content = "") :
    addDocumentCore embed data name = (false, []) := by
  unfold addDocumentCore
  rw [buildRecords_empty_sections embed name data data.sections 0 h]
  rfl

/-- The success flag and id/content skeleton of `addDocumentCore` do not
depend on the embedding function. -/
theorem addDocumentCore_embed_congr (embed₁ embed₂ : String → Except String (List Rat))
    (data : DocJson) (name : String) :
    (addDocumentCore embed₁ data name).1 = (addDocumentCore embed₂ data name).1 ∧
    (addDocumentCore embed₁ data name).2.map (fun r => (r.id, r.content))
      = (addDocumentCore embed₂ data name).2.map (fun r => (r.id, r.content)) := by
  unfold addDocumentCore
  have h := buildRecords_embed_congr embed₁ embed₂ name data data.sections 0
  cases hb₁ : buildRecords embed₁ name data 0 data.sections with
  | error e =>
    rw [hb₁] at h
    cases hb₂ : buildRecords embed₂ name data 0 data.sections with
    | error e' => exact ⟨rfl, rfl⟩
    | ok l₂ =>
      rw [hb₂] at h
      cases h
  | ok l₁ =>
    rw [hb₁] at h
    cases hb₂ : buildRecords embed₂ name data 0 data.sections with
    | error e' =>
      rw [hb₂] at h
      cases h
    | ok l₂ =>
      rw [hb₂] at h
      injection h with h'
      have hlen : l₁.length = l₂.length := by
        have := congrArg List.length h'
        rwa [List.length_map, List.length_map] at this
      by_cases he : l₁ = []
      · have he₂ : l₂ = [] := by
          rw [he] at hlen
          exact List.length_eq_zero.mp hlen.symm
      
        subst he
        subst he₂
        exact ⟨rfl, rfl⟩
      · have he₂ : l₂ ≠ [] := by
          intro hc
          rw [hc] at hlen
          exact he (List.length_eq_zero.mp hlen)
        refine ⟨?_, ?_⟩
        · show (if l₁.isEmpty = true then ((false : Bool), ([] : List StoredChunk))
              else (true, l₁)).1
            = (if l₂.isEmpty = true then ((false : Bool), ([] : List StoredChunk))
              else (true, l₂)).1
          rw [if_neg (by rw [list_isEmpty_iff_eq_nil]; exact he),
            if_neg (by rw [list_isEmpty_iff_eq_nil]; exact he₂)]
        · show List.map (fun r => (r.id, r.content))
              (if l₁.isEmpty = true then ((false : Bool), ([] : List StoredChunk))
                else (true, l₁)).2
            = List.map (fun r => (r.id, r.content))
              (if l₂.isEmpty = true then ((false : Bool), ([] : List StoredChunk))
                else (true, l₂)).2
          rw [if_neg (by rw [list_isEmpty_iff_eq_nil]; exact he),
            if_neg (by rw [list_isEmpty_iff_eq_nil]; exact he₂)]
          exact h'

/-- Every record stored by `addDocumentCore` carries the embedding computed
from its own content (with the zero-vector fallback). -/
theorem addDocumentCore_embedding (embed : String → Except String (List Rat))
    (data : DocJson) (name : String) (r : StoredChunk)
    (hr : r ∈ (addDocumentCore embed data name).2) :
    r.embedding = generate_ollama_embedding embed r.content := by
  unfold addDocumentCore at hr
  cases hb : buildRecords embed name data 0 data.sections with
  | error e =>
    rw [hb] at hr
    exact absurd hr (List.not_mem_nil r)
  | ok l =>
    rw [hb] at hr
    by_cases hle : l = []
    · subst hle
      simp at hr
    · replace hr : r ∈ (if l.isEmpty = true then ((false : Bool), ([] : List StoredChunk))
          else (true, l)).2 := hr
      rw [if_neg (by rw [list_isEmpty_iff_eq_nil]; exact hle)] at hr
      exact buildRecords_embedding embed name data data.sections 0 l hb r hr

end VectorStore

/-- C9: `add_document` returns `false` when the processed JSON file is missing
or when the document has no non-empty sections; and a failure to embed a
single chunk neither makes it return `false` nor drops that chunk — the
success flag and the id/content skeleton of the stored records are the same
for any two embedding functions, and a chunk whose embedding call fails is
stored with the fixed `[0.0] * 1024` zero vector. -/
theorem C9_add_document_policy :
    (∀ (documents : List DocumentConfig) (gc : String → Except String Unit)
        (embed : String → Except String (List Rat)) (name : String),
        VectorStore.add_document documents gc embed none name = (false, [])) ∧
    (∀ (documents : List DocumentConfig) (gc : String → Except String Unit)
        (embed : String → Except String (List Rat)) (data : DocJson) (name : String),
        (∀ s ∈ data.sections, s.content = "") →
        (VectorStore.add_document documents gc embed (some data) name).1 = false) ∧
    (∀ (documents : List DocumentConfig) (gc : String → Except String Unit)
        (embed₁ embed₂ : String → Except String (List Rat)) (data : DocJson) (name : String),
        (VectorStore.add_document documents gc embed₁ (some data) name).1
          = (VectorStore.add_document documents gc embed₂ (some data) name).1 ∧
        (VectorStore.add_document documents gc embed₁ (some data) name).2.map
            (fun r => (r.id, r.content))
          = (VectorStore.add_document documents gc embed₂ (some data) name).2.map
            (fun r => (r.id, r.content))) ∧
    (∀ (documents : List DocumentConfig) (gc : String → Except String Unit)
        (embed : String → Except String (List Rat)) (data : DocJson) (name : String)
        (r : StoredChunk),
        r ∈ (VectorStore.add_document documents gc embed (some data) name).2 →
        ∀ e, embed r.content = .error e → r.embedding = List.replicate 1024 0) := by
  refine ⟨?_, ?_, ?_, ?_⟩
  · intro documents gc embed name
    unfold VectorStore.add_document
    cases documents.find? (fun d => d.name == name) with
    | none => rfl
    | some d => rfl
  · intro documents gc embed data name h
    unfold VectorStore.add_document
    cases documents.find? (fun d => d.name == name) with
    | none => rfl
    | some d =>
      cases gc name with
      | error e => rfl
      | ok u =>
        show (VectorStore.addDocumentCore embed data name).1 = false
        rw [VectorStore.addDocumentCore_empty_sections embed data name h]
  · intro documents gc embed₁ embed₂ data name
    unfold VectorStore.add_document
    cases documents.find? (fun d => d.name == name) with
    | none => exact ⟨rfl, rfl⟩
    | some d =>
      cases gc name with
      | error e => exact ⟨rfl, rfl⟩
      | ok u =>
        show (VectorStore.addDocumentCore embed₁ data name).1
            = (VectorStore.addDocumentCore embed₂ data name).1 ∧
          (VectorStore.addDocumentCore embed₁ data name).2.map (fun r => (r.id, r.content))
            = (VectorStore.addDocumentCore embed₂ data name).2.map (fun r => (r.id, r.content))
        exact VectorStore.addDocumentCore_embed_congr embed₁ embed₂ data name
  · intro documents gc embed data name r hr e he
    unfold VectorStore.add_document at hr
    cases hf : documents.find? (fun d => d.name == name) with
    | none =>
      rw [hf] at hr
      exact absurd hr (List.not_mem_nil r)
    | some d =>
      rw [hf] at hr
      cases hg : gc name with
      | error e' =>
        rw [hg] at hr
        exact absurd hr (List.not_mem_nil r)
      | ok u =>
        rw [hg] at hr
        replace hr : r ∈ (VectorStore.addDocumentCore embed data name).2 := hr
        have := VectorStore.addDocumentCore_embedding embed data name r hr
        rw [this]
        unfold VectorStore.generate_ollama_embedding
        rw [he]

/-- C9 witness: `C9_add_document_policy` applied at a concrete configuration —
a document whose only section has empty content is not added (`False`), even
with an embedding function that always fails. -/
theorem C9_add_document_policy_witness :
    (VectorStore.add_document
        [⟨"marco_fuso", "docs/m.pdf", "data/m.json", "Marco Fuso - Menu", "fr", "menu"⟩]
        (fun _ => .ok ()) (fun _ => .error "ollama down")
        (some ⟨none, none, none, [⟨"", none⟩]⟩) "marco_fuso").1 = false :=
  C9_add_document_policy.2.1
    [⟨"marco_fuso", "docs/m.pdf", "data/m.json", "Marco Fuso - Menu", "fr", "menu"⟩]
    (fun _ => .ok ()) (fun _ => .error "ollama down")
    ⟨none, none, none, [⟨"", none⟩]⟩ "marco_fuso" (by decide)

/-! ## Company names (`config/config.py`, `ModularConfig.get_company_name`) -/

/-- `ModularConfig.get_company_name`: the text before the first `" - "` of the
configured description; for an unknown document name (`get_document_by_name`
raises and the `except` branch runs) the title-cased document name with
underscores replaced by spaces. -/
def get_company_name (documents : List DocumentConfig) (document_name : String) : String :=
  match documents.find? (fun d => d.name == document_name) with
  | some doc => (pySplitSep doc.description " - ").headD ""
  | none => pyTitle (pyReplace document_name "_" " ")

/-! ## Context aggregation (`rag_engine.py`, `LLMInterface.get_context`) -/

/-- Dict lookup (`d[k]` / `k in d`) on an insertion-ordered association list. -/
def alGet? {α : Type} (l : List (String × α)) (k : String) : Option α :=
  (l.find? (fun p => p.1 == k)).map (·.2)

/-- `d[k].append(x)` on the association list (first matching key updated). -/
def alAppendAt : List (String × List String) → String → String → List (String × List String)
  | [], _, _ => []
  | (k', v) :: rest, k, x =>
    if k' == k then (k', v ++ [x]) :: rest else (k', v) :: alAppendAt rest k x

/-- `d[k] += 1` on the association list (first matching key updated). -/
def alIncrAt : List (String × Nat) → String → List (String × Nat)
  | [], _ => []
  | (k', n) :: rest, k => if k' == k then (k', n + 1) :: rest else (k', n) :: alIncrAt rest k

/-- The total number of snippets over all groups
(`sum(len(contexts) for contexts in context_by_company.values())`). -/
def sumLens (l : List (String × List String)) : Nat := (l.map (fun p => p.2.length)).sum

namespace LLMInterface

/-- The mutable state of `get_context`'s result loop. -/
structure GCState where
  context_by_company : List (String × List String)
  documents_used : List String
  company_counts : List (String × Nat)
  deriving DecidableEq

/-- The formatted snippet `f"[Page {metadata.get('page', 'N/A')}] {content}"`. -/
def formatSnippet (r : SearchHit) : String :=
  "[Page " ++ (match r.page with | some p => toString p | none => "N/A") ++ "] " ++ r.content

/-- `if company_name not in company_counts: company_counts[company_name] = 0`. -/
def countsInit (counts : List (String × Nat)) (c : String) : List (String × Nat) :=
  if (alGet? counts c).isSome then counts else counts ++ [(c, 0)]

/-- `if company_name not in context_by_company: context_by_company[company_name] = []`. -/
def ctxInit (ctx : List (String × List String)) (c : String) : List (String × List String) :=
  if (alGet? ctx c).isSome then ctx else ctx ++ [(c, [])]

/-- The body of `get_context`'s result loop (`rag_engine.py`, lines 75-103):
record the owning document (`documents_used`), initialise the company's
counter, skip the hit when the company has reached the diversity cap,
otherwise extend the company's group with the formatted snippet, bump the
counter, and stop (`break`) as soon as the total number of snippets reaches
`max_chunks`.  The Python locals are inlined: `company_name` is
`companyOf r.document_name`, the initialised dicts are `countsInit` /
`ctxInit`, and the updated state is spelled out in both `break` branches. -/
def getContextLoop (companyOf : String → String) (max_per_company max_chunks : Nat) :
    List SearchHit → GCState → GCState
  | [], st => st
  | r :: rs, st =>
    if (alGet? (countsInit st.company_counts (companyOf r.document_name))
        (companyOf r.document_name)).getD 0 ≥ max_per_company then
      getContextLoop companyOf max_per_company max_chunks rs
        { st with documents_used := addIfAbsent st.documents_used r.document_name,
                  company_counts := countsInit st.company_counts (companyOf r.document_name) }
    else
      if sumLens (alAppendAt (ctxInit st.context_by_company (companyOf r.document_name))
          (companyOf r.document_name) (formatSnippet r)) ≥ max_chunks then
        { context_by_company := alAppendAt (ctxInit st.context_by_company (companyOf r.document_name))
            (companyOf r.document_name) (formatSnippet r),
          documents_used := addIfAbsent st.documents_used r.document_name,
          company_counts := alIncrAt (countsInit st.company_counts (companyOf r.document_name))
            (companyOf r.document_name) }
      else
        getContextLoop companyOf max_per_company max_chunks rs
          { context_by_company := alAppendAt (ctxInit st.context_by_company (companyOf r.document_name))
              (companyOf r.document_name) (formatSnippet r),
            documents_used := addIfAbsent st.documents_used r.document_name,
            company_counts := alIncrAt (countsInit st.company_counts (companyOf r.document_name))
              (companyOf r.document_name) }

/-- The dictionary returned by `get_context`. -/
structure ContextData where
  context_by_company : List (String × List String)
  documents_used : List String
  has_multiple_companies : Bool
  deriving DecidableEq

/-- `LLMInterface.get_context` (`rag_engine.py`): over-fetch `2 × max_chunks`
results when no document is requested, group hits by company under the
diversity cap `max(2, max_chunks // 2)` (or `max_chunks` when documents are
explicitly targeted), and report the documents seen and whether several
companies' groups exist.  `search` stands for `self.vector_store.search`. -/
def get_context (documents : List DocumentConfig)
    (search : String → DocNames → Nat → SearchResponse)
    (query : String) (document_names : DocNames := .noneName) (max_chunks : Nat := 5) :
    ContextData :=
  let search_limit := if document_names.isNoneName then max_chunks * 2 else max_chunks
  let search_results := search query document_names search_limit
  let max_per_company := if document_names.isNoneName then max 2 (max_chunks / 2) else max_chunks
  let st := getContextLoop (get_company_name documents) max_per_company max_chunks
    search_results.results
    { context_by_company := [], documents_used := [], company_counts := [] }
  { context_by_company := st.context_by_company,
    documents_used := st.documents_used,
    has_multiple_companies := st.context_by_company.length > 1 }

end LLMInterface

/-! ## Association-list lemmas for the `get_context` loop -/

theorem alGet?_nil {α : Type} (k : String) : alGet? ([] : List (String × α)) k = none := rfl

theorem alGet?_cons {α : Type} (k' k : String) (v : α) (l : List (String × α)) :
    alGet? ((k', v) :: l) k = if k' == k then some v else alGet? l k := by
  by_cases h : (k' == k) = true
  · unfold alGet?
    rw [List.find?_cons_of_pos _ (by exact h), if_pos h]
    rfl
  · unfold alGet?
    rw [List.find?_cons_of_neg _ (by exact h), if_neg h]

theorem sumLens_cons (k : String) (v : List String) (l : List (String × List String)) :
    sumLens ((k, v) :: l) = v.length + sumLens l := rfl

theorem sumLens_append (l₁ l₂ : List (String × List String)) :
    sumLens (l₁ ++ l₂) = sumLens l₁ + sumLens l₂ := by
  unfold sumLens
  rw [List.map_append, List.sum_append]

theorem sumLens_alAppendAt : ∀ (l : List (String × List String)) (k x : String),
    (alGet? l k).isSome = true → sumLens (alAppendAt l k x) = sumLens l + 1
  | [], k, x => by
    intro h
    rw [alGet?_nil] at h
    cases h
  | (k', v) :: l, k, x => by
    intro h
    rw [alGet?_cons] at h
    unfold alAppendAt
    by_cases hk : (k' == k) = true
    · rw [if_pos hk, sumLens_cons, sumLens_cons, List.length_append]
      simp only [List.length_singleton]
      omega
    · rw [if_neg hk] at h
      rw [if_neg hk, sumLens_cons, sumLens_cons, sumLens_alAppendAt l k x h]
      omega

theorem mem_alAppendAt : ∀ (l : List (String × List String)) (k x : String)
    (p : String × List String), p ∈ alAppendAt l k x →
    p ∈ l ∨ ∃ v, alGet? l k = some v ∧ p = (k, v ++ [x])
  | [], k, x, p => by
    intro h
    cases h
  | (k', v) :: l, k, x, p => by
    intro h
    unfold alAppendAt at h
    by_cases hk : (k' == k) = true
    · rw [if_pos hk] at h
      rcases List.mem_cons.mp h with h₁ | h₁
      · refine Or.inr ⟨v, ?_, ?_⟩
        · rw [alGet?_cons, if_pos hk]
        · rw [h₁, eq_of_beq hk]
      · exact Or.inl (List.mem_cons_of_mem _ h₁)
    · rw [if_neg hk] at h
      rcases List.mem_cons.mp h with h₁ | h₁
      · exact Or.inl (h₁ ▸ List.mem_cons_self ..)
      · rcases mem_alAppendAt l k x p h₁ with h₂ | ⟨w, hw, hp⟩
        · exact Or.inl (List.mem_cons_of_mem _ h₂)
        · refine Or.inr ⟨w, ?_, hp⟩
          rw [alGet?_cons, if_neg hk]
          exact hw

theorem alGet?_alAppendAt : ∀ (l : List (String × List String)) (k x k' : String),
    alGet? (alAppendAt l k x) k'
      = if k' = k then (alGet? l k').map (fun v => v ++ [x]) else alGet? l k'
  | [], k, x, k' => by
    rw [alGet?_nil]
    split <;> rfl
  | (k₀, v) :: l, k, x, k' => by
    unfold alAppendAt
    by_cases h₀ : (k₀ == k) = true
    · rw [if_pos h₀, alGet?_cons, alGet?_cons]
      by_cases h₁ : (k₀ == k') = true
      · rw [if_pos h₁, if_pos h₁]
        rw [if_pos (by rw [← eq_of_beq h₁, eq_of_beq h₀])]
        rfl
      · rw [if_neg h₁, if_neg h₁]
        rw [if_neg (by intro hc; rw [hc, ← eq_of_beq h₀] at h₁; exact h₁ (beq_self_eq_true k₀))]
    · rw [if_neg h₀, alGet?_cons, alGet?_cons]
      by_cases h₁ : (k₀ == k') = true
      · rw [if_pos h₁, if_pos h₁]
        rw [if_neg (by intro hc; rw [← hc] at h₀; exact h₀ h₁)]
      · rw [if_neg h₁, if_neg h₁, alGet?_alAppendAt l k x k']

theorem alGet?_alIncrAt : ∀ (l : List (String × Nat)) (k k' : String),
    alGet? (alIncrAt l k) k'
      = if k' = k then (alGet? l k').map (fun n => n + 1) else alGet? l k'
  | [], k, k' => by
    rw [alGet?_nil]
    split <;> rfl
  | (k₀, n) :: l, k, k' => by
    unfold alIncrAt
    by_cases h₀ : (k₀ == k) = true
    · rw [if_pos h₀, alGet?_cons, alGet?_cons]
      by_cases h₁ : (k₀ == k') = true
      · rw [if_pos h₁, if_pos h₁]
        rw [if_pos (by rw [← eq_of_beq h₁, eq_of_beq h₀])]
        rfl
      · rw [if_neg h₁, if_neg h₁]
        rw [if_neg (by intro hc; rw [hc, ← eq_of_beq h₀] at h₁; exact h₁ (beq_self_eq_true k₀))]
    · rw [if_neg h₀, alGet?_cons, alGet?_cons]
      by_cases h₁ : (k₀ == k') = true
      · rw [if_pos h₁, if_pos h₁]
        rw [if_neg (by intro hc; rw [← hc] at h₀; exact h₀ h₁)]
      · rw [if_neg h₁, if_neg h₁, alGet?_alIncrAt l k k']

theorem alGet?_append_default {α : Type} :
    ∀ (l : List (String × α)) (c k : String) (z : α), alGet? l c = none →
      alGet? (l ++ [(c, z)]) k = if k = c then some z else alGet? l k
  | [], c, k, z => by
    intro _
    rw [List.nil_append, alGet?_cons, alGet?_nil]
    by_cases h : (c == k) = true
    · rw [if_pos h, if_pos (eq_of_beq h).symm]
    · rw [if_neg h, if_neg (fun hc => h (by rw [hc]; exact beq_self_eq_true c))]
  | (k₀, v) :: l, c, k, z => by
    intro h
    rw [alGet?_cons] at h
    rw [List.cons_append, alGet?_cons, alGet?_cons]
    by_cases h₀ : (k₀ == k) = true
    · rw [if_pos h₀, if_pos h₀]
      have hne : ¬(k = c) := by
        intro hc
        rw [if_pos (by rw [eq_of_beq h₀, hc]; exact beq_self_eq_true c)] at h
        cases h
      rw [if_neg hne]
    · rw [if_neg h₀, if_neg h₀]
      by_cases hc₀ : (k₀ == c) = true
      · rw [if_pos hc₀] at h
        cases h
      · rw [if_neg hc₀] at h
        exact alGet?_append_default l c k z h

namespace LLMInterface

/-- The loop correspondence: every company's counter equals the length of its
context group. -/
def Binv (counts : List (String × Nat)) (ctx : List (String × List String)) : Prop :=
  ∀ k, (alGet? counts k).getD 0 = ((alGet? ctx k).getD []).length

theorem countsInit_getD (counts : List (String × Nat)) (c k : String) :
    (alGet? (countsInit counts c) k).getD 0 = (alGet? counts k).getD 0 := by
  unfold countsInit
  by_cases h : (alGet? counts c).isSome = true
  · rw [if_pos h]
  · rw [if_neg h]
    have hnone : alGet? counts c = none := Option.not_isSome_iff_eq_none.mp h
    rw [alGet?_append_default counts c k 0 hnone]
    by_cases hk : k = c
    · rw [if_pos hk, hk, hnone]
      rfl
    · rw [if_neg hk]

theorem countsInit_isSome (counts : List (String × Nat)) (c : String) :
    (alGet? (countsInit counts c) c).isSome = true := by
  unfold countsInit
  by_cases h : (alGet? counts c).isSome = true
  · rw [if_pos h]
    exact h
  · rw [if_neg h]
    have hnone : alGet? counts c = none := Option.not_isSome_iff_eq_none.mp h
    rw [alGet?_append_default counts c c 0 hnone, if_pos rfl]
    rfl

theorem Binv_countsInit {counts : List (String × Nat)} {ctx : List (String × List String)}
    (c : String) (h : Binv counts ctx) : Binv (countsInit counts c) ctx := by
  intro k
  rw [countsInit_getD]
  exact h k

theorem ctxInit_get_self (ctx : List (String × List String)) (c : String) :
    alGet? (ctxInit ctx c) c = some ((alGet? ctx c).getD []) := by
  unfold ctxInit
  cases h : alGet? ctx c with
  | some v =>
    rw [if_pos (by rfl), h]
    rfl
  | none =>
    rw [if_neg (by exact Bool.false_ne_true), alGet?_append_default ctx c c [] h, if_pos rfl]
    rfl

theorem ctxInit_groupLen (ctx : List (String × List String)) (c k : String) :
    ((alGet? (ctxInit ctx c) k).getD []).length = ((alGet? ctx k).getD []).length := by
  unfold ctxInit
  by_cases h : (alGet? ctx c).isSome = true
  · rw [if_pos h]
  · rw [if_neg h]
    have hnone : alGet? ctx c = none := Option.not_isSome_iff_eq_none.mp h
    rw [alGet?_append_default ctx c k [] hnone]
    by_cases hk : k = c
    · rw [if_pos hk, hk, hnone]
      rfl
    · rw [if_neg hk]

theorem sumLens_ctxInit (ctx : List (String × List String)) (c : String) :
    sumLens (ctxInit ctx c) = sumLens ctx := by
  unfold ctxInit
  by_cases h : (alGet? ctx c).isSome = true
  · rw [if_pos h]
  · rw [if_neg h, sumLens_append, sumLens_cons]
    show sumLens ctx + (0 + sumLens []) = sumLens ctx
    show sumLens ctx + (0 + 0) = sumLens ctx
    omega

theorem mem_ctxInit (ctx : List (String × List String)) (c : String)
    (p : String × List String) (hp : p ∈ ctxInit ctx c) : p ∈ ctx ∨ p = (c, []) := by
  unfold ctxInit at hp
  by_cases h : (alGet? ctx c).isSome = true
  · rw [if_pos h] at hp
    exact Or.inl hp
  · rw [if_neg h] at hp
    rcases List.mem_append.mp hp with h₁ | h₁
    · exact Or.inl h₁
    · exact Or.inr (List.mem_singleton.mp h₁)

theorem sumLens_acceptStep (ctx : List (String × List String)) (c s : String) :
    sumLens (alAppendAt (ctxInit ctx c) c s) = sumLens ctx + 1 := by
  rw [sumLens_alAppendAt _ _ _ (by rw [ctxInit_get_self]; rfl), sumLens_ctxInit]

theorem groupBound_acceptStep {cap : Nat} {ctx : List (String × List String)} {c s : String}
    (hA : ∀ p ∈ ctx, p.2.length ≤ cap)
    (hlen : ((alGet? ctx c).getD []).length < cap) :
    ∀ p ∈ alAppendAt (ctxInit ctx c) c s, p.2.length ≤ cap := by
  intro p hp
  rcases mem_alAppendAt _ _ _ p hp with h₁ | ⟨v, hv, rfl⟩
  · rcases mem_ctxInit _ _ _ h₁ with h₂ | rfl
    · exact hA p h₂
    · show ([] : List String).length ≤ cap
      exact Nat.zero_le cap
  · rw [ctxInit_get_self] at hv
    injection hv with hv'
    show (v ++ [s]).length ≤ cap
    have h1 : ([s] : List String).length = 1 := rfl
    rw [List.length_append, ← hv', h1]
    omega

theorem Binv_acceptStep {counts : List (String × Nat)} {ctx : List (String × List String)}
    (c s : String) (hB : Binv counts ctx) :
    Binv (alIncrAt (countsInit counts c) c) (alAppendAt (ctxInit ctx c) c s) := by
  intro k
  rw [alGet?_alIncrAt, alGet?_alAppendAt]
  by_cases hk : k = c
  · rw [if_pos hk, if_pos hk, hk, ctxInit_get_self]
    cases hc : alGet? (countsInit counts c) c with
    | none =>
      have := countsInit_isSome counts c
      rw [hc] at this
      cases this
    | some n =>
      have hn : n = ((alGet? ctx c).getD []).length := by
        have := countsInit_getD counts c c
        rw [hc] at this
        rw [show (some n).getD 0 = n from rfl] at this
        rw [this]
        exact hB c
      show n + 1 = ((alGet? ctx c).getD [] ++ [s]).length
      rw [List.length_append, hn]
      rfl
  · rw [if_neg hk, if_neg hk, countsInit_getD, ctxInit_groupLen]
    exact hB k

/-- Invariant of `get_context`'s result loop: starting below the total budget
with consistent counters, every company group stays within the diversity cap
and the total snippet count never exceeds `max_chunks`. -/
theorem getContextLoop_invariant (companyOf : String → String) (cap mc : Nat) :
    ∀ (rs : List SearchHit) (st : GCState),
      (∀ p ∈ st.context_by_company, p.2.length ≤ cap) →
      Binv st.company_counts st.context_by_company →
      sumLens st.context_by_company < mc →
      (∀ p ∈ (getContextLoop companyOf cap mc rs st).context_by_company, p.2.length ≤ cap) ∧
      sumLens (getContextLoop companyOf cap mc rs st).context_by_company ≤ mc
  | [], st => by
    intro hA _ hC
    exact ⟨hA, le_of_lt hC⟩
  | r :: rs, st => by
    intro hA hB hC
    unfold getContextLoop
    by_cases hcap : (alGet? (countsInit st.company_counts (companyOf r.document_name))
        (companyOf r.document_name)).getD 0 ≥ cap
    · rw [if_pos hcap]
      exact getContextLoop_invariant companyOf cap mc rs _ hA
        (Binv_countsInit (companyOf r.document_name) hB) hC
    · rw [if_neg hcap]
      have hlen : ((alGet? st.context_by_company (companyOf r.document_name)).getD []).length
          < cap := by
        rw [countsInit_getD] at hcap
        have := hB (companyOf r.document_name)
        omega
      have hA' := groupBound_acceptStep hA hlen (s := formatSnippet r)
      have hB' := Binv_acceptStep (companyOf r.document_name) (formatSnippet r) hB
      have hsum := sumLens_acceptStep st.context_by_company (companyOf r.document_name)
        (formatSnippet r)
      by_cases hmc : sumLens (alAppendAt (ctxInit st.context_by_company
          (companyOf r.document_name)) (companyOf r.document_name) (formatSnippet r)) ≥ mc
      · rw [if_pos hmc]
        refine ⟨hA', ?_⟩
        show sumLens (alAppendAt (ctxInit st.context_by_company (companyOf r.document_name))
            (companyOf r.document_name) (formatSnippet r)) ≤ mc
        rw [hsum]
        omega
      · rw [if_neg hmc]
        exact getContextLoop_invariant companyOf cap mc rs _ hA' hB'
          (by show sumLens (alAppendAt (ctxInit st.context_by_company
              (companyOf r.document_name)) (companyOf r.document_name)
              (formatSnippet r)) < mc
              omega)

end LLMInterface

/-- C1: for every query and every `max_chunks ≥ 1`, `get_context` returns at
most `max_chunks` context snippets in total over all company groups, and each
single company's group holds at most `max(2, max_chunks // 2)` snippets when
no document was requested (`document_names is None`) and at most `max_chunks`
snippets when specific documents were requested. -/
theorem C1_get_context_caps (documents : List DocumentConfig)
    (search : String → DocNames → Nat → SearchResponse)
    (query : String) (document_names : DocNames) (max_chunks : Nat)
    (h : 1 ≤ max_chunks) :
    sumLens (LLMInterface.get_context documents search query document_names
        max_chunks).context_by_company ≤ max_chunks ∧
    ∀ p ∈ (LLMInterface.get_context documents search query document_names
        max_chunks).context_by_company,
      p.2.length ≤ (if document_names.isNoneName then max 2 (max_chunks / 2)
        else max_chunks) := by
  have hinv := LLMInterface.getContextLoop_invariant (get_company_name documents)
    (if document_names.isNoneName then max 2 (max_chunks / 2) else max_chunks) max_chunks
    (search query document_names
      (if document_names.isNoneName then max_chunks * 2 else max_chunks)).results
    { context_by_company := [], documents_used := [], company_counts := [] }
    (by intro p hp; cases hp) (fun k => rfl)
    (by rw [show sumLens ([] : List (String × List String)) = 0 from rfl]; omega)
  exact ⟨hinv.2, hinv.1⟩

/-- C1 witness: `C1_get_context_caps` at a concrete search function and
`max_chunks = 5`. -/
theorem C1_get_context_caps_witness :
    sumLens (LLMInterface.get_context []
        (fun _ _ _ => ⟨"q", ["marco"], [⟨"c1", some 1, 0, "marco"⟩]⟩)
        "q" .noneName 5).context_by_company ≤ 5 ∧
    ∀ p ∈ (LLMInterface.get_context []
        (fun _ _ _ => ⟨"q", ["marco"], [⟨"c1", some 1, 0, "marco"⟩]⟩)
        "q" .noneName 5).context_by_company,
      p.2.length ≤ (if DocNames.noneName.isNoneName then max 2 (5 / 2) else 5) :=
  C1_get_context_caps []
    (fun _ _ _ => ⟨"q", ["marco"], [⟨"c1", some 1, 0, "marco"⟩]⟩)
    "q" .noneName 5 (by decide)

/-- First-seen deduplication in first-occurrence order (the repeated
`if x not in seen: seen.append(x)` idiom). -/
def dedupFirst (l : List String) : List String := l.foldl addIfAbsent []

namespace LLMInterface

/-- The number of hits `get_context`'s loop examines before it stops: a hit
skipped by the per-company diversity cap is examined and passed over, and the
hit whose acceptance brings the total to `max_chunks` is the last one
examined — every later hit is never looked at.  The `counts`/`total`
arguments mirror the loop's state. -/
def examinedCount (companyOf : String → String) (cap mc : Nat) :
    List SearchHit → List (String × Nat) → Nat → Nat
  | [], _, _ => 0
  | r :: rs, counts, total =>
    if (alGet? (countsInit counts (companyOf r.document_name))
        (companyOf r.document_name)).getD 0 ≥ cap then
      examinedCount companyOf cap mc rs (countsInit counts (companyOf r.document_name)) total + 1
    else if total + 1 ≥ mc then 1
    else
      examinedCount companyOf cap mc rs
        (alIncrAt (countsInit counts (companyOf r.document_name)) (companyOf r.document_name))
        (total + 1) + 1

/-- `documents_used` is exactly the first-seen fold of the owning documents of
the examined prefix of the hits (cap-skipped hits included, never-examined
ones excluded). -/
theorem getContextLoop_docs (companyOf : String → String) (cap mc : Nat) :
    ∀ (rs : List SearchHit) (st : GCState),
      Binv st.company_counts st.context_by_company →
      (getContextLoop companyOf cap mc rs st).documents_used
        = (rs.take (examinedCount companyOf cap mc rs st.company_counts
              (sumLens st.context_by_company))).foldl
            (fun acc r => addIfAbsent acc r.document_name) st.documents_used
  | [], st => by
    intro _
    rfl
  | r :: rs, st => by
    intro hB
    unfold getContextLoop examinedCount
    by_cases hcap : (alGet? (countsInit st.company_counts (companyOf r.document_name))
        (companyOf r.document_name)).getD 0 ≥ cap
    · rw [if_pos hcap, if_pos hcap, List.take_succ_cons, List.foldl_cons]
      exact getContextLoop_docs companyOf cap mc rs
        { st with documents_used := addIfAbsent st.documents_used r.document_name,
                  company_counts := countsInit st.company_counts (companyOf r.document_name) }
        (Binv_countsInit (companyOf r.document_name) hB)
    · rw [if_neg hcap, if_neg hcap]
      have hsum := sumLens_acceptStep st.context_by_company (companyOf r.document_name)
        (formatSnippet r)
      by_cases hmc : sumLens (alAppendAt (ctxInit st.context_by_company
          (companyOf r.document_name)) (companyOf r.document_name) (formatSnippet r)) ≥ mc
      · rw [if_pos hmc, if_pos (by omega), List.take_succ_cons, List.foldl_cons]
        rfl
      · rw [if_neg hmc, if_neg (by omega), List.take_succ_cons, List.foldl_cons]
        have hrec := getContextLoop_docs companyOf cap mc rs
          { context_by_company := alAppendAt (ctxInit st.context_by_company
              (companyOf r.document_name)) (companyOf r.document_name) (formatSnippet r),
            documents_used := addIfAbsent st.documents_used r.document_name,
            company_counts := alIncrAt (countsInit st.company_counts
              (companyOf r.document_name)) (companyOf r.document_name) }
          (Binv_acceptStep (companyOf r.document_name) (formatSnippet r) hB)
        rw [hrec]
        show (rs.take (examinedCount companyOf cap mc rs _
            (sumLens (alAppendAt (ctxInit st.context_by_company (companyOf r.document_name))
              (companyOf r.document_name) (formatSnippet r))))).foldl _ _
          = (rs.take (examinedCount companyOf cap mc rs _
              (sumLens st.context_by_company + 1))).foldl _ _
        rw [hsum]

end LLMInterface

/-- C10 counterexample: with two hits from distinct documents and
`max_chunks = 1`, the first hit's acceptance reaches the budget and the loop
breaks — the second raw hit's document `"b"` never enters `documents_used`,
refuting the claim that every raw hit's owning document is listed. -/
theorem C10_counterexample :
    (LLMInterface.get_context []
        (fun _ _ _ => ⟨"q", ["a", "b"],
          [⟨"c1", some 1, 0, "a"⟩, ⟨"c2", some 2, 1, "b"⟩]⟩)
        "q" .noneName 1).documents_used = ["a"] ∧
    ([⟨"c1", some 1, (0 : Rat), "a"⟩, (⟨"c2", some 2, 1, "b"⟩ : SearchHit)].map
        (fun r => r.document_name)) = ["a", "b"] := by
  exact ⟨by decide, by decide⟩

/-- C10 (amended): `documents_used` lists, in first-hit order, the owning
document of every hit examined before the scan stops — including hits
discarded by the per-company diversity cap — but not the hits after the
total-budget stop, which are never examined; consequently (second conjunct,
at a concrete input) a document can appear in `documents_used` while
contributing zero snippets to every context group, namely when all its hits
are discarded by the diversity cap. -/
theorem C10_documents_used_amended :
    (∀ (documents : List DocumentConfig) (search : String → DocNames → Nat → SearchResponse)
        (query : String) (document_names : DocNames) (max_chunks : Nat),
      (LLMInterface.get_context documents search query document_names
          max_chunks).documents_used
        = dedupFirst (((search query document_names
              (if document_names.isNoneName then max_chunks * 2 else max_chunks)).results.take
            (LLMInterface.examinedCount (get_company_name documents)
              (if document_names.isNoneName then max 2 (max_chunks / 2) else max_chunks)
              max_chunks
              (search query document_names
                (if document_names.isNoneName then max_chunks * 2 else max_chunks)).results
              [] 0)).map (fun r => r.document_name))) ∧
    ("y" ∈ (LLMInterface.get_context
        [⟨"x", "px.pdf", "jx.json", "Pizza Co - Menu", "fr", "menu"⟩,
         ⟨"y", "py.pdf", "jy.json", "Pizza Co - Beverages", "fr", "menu"⟩]
        (fun _ _ _ => ⟨"q", ["x", "y"],
          [⟨"c1", some 1, 0, "x"⟩, ⟨"c2", some 2, 1, "x"⟩, ⟨"c3", some 3, 2, "y"⟩]⟩)
        "q" .noneName 4).documents_used ∧
     ∀ p ∈ (LLMInterface.get_context
        [⟨"x", "px.pdf", "jx.json", "Pizza Co - Menu", "fr", "menu"⟩,
         ⟨"y", "py.pdf", "jy.json", "Pizza Co - Beverages", "fr", "menu"⟩]
        (fun _ _ _ => ⟨"q", ["x", "y"],
          [⟨"c1", some 1, 0, "x"⟩, ⟨"c2", some 2, 1, "x"⟩, ⟨"c3", some 3, 2, "y"⟩]⟩)
        "q" .noneName 4).context_by_company, "[Page 3] c3" ∉ p.2) := by
  refine ⟨?_, by decide, by decide⟩
  intro documents search query document_names max_chunks
  have hdocs := LLMInterface.getContextLoop_docs (get_company_name documents)
    (if document_names.isNoneName then max 2 (max_chunks / 2) else max_chunks) max_chunks
    (search query document_names
      (if document_names.isNoneName then max_chunks * 2 else max_chunks)).results
    { context_by_company := [], documents_used := [], company_counts := [] }
    (fun k => rfl)
  rw [show sumLens ([] : List (String × List String)) = 0 from rfl] at hdocs
  unfold dedupFirst
  rw [List.foldl_map]
  exact hdocs

/-! ## Generic document chunker (`src/utils/chunking.py`, `DocumentChunker`) -/

/-- The carry-over slice `current_chunk[-self.chunk_overlap//10:]`
(`chunking.py`, line 158).  Python's unary minus binds before `//`, so the
index is `(-chunk_overlap) // 10 = -ceil(chunk_overlap / 10)`: the last
`⌈chunk_overlap / 10⌉` elements — except that `chunk_overlap = 0` gives the
index `0`, i.e. the whole list. -/
def carrySlice {α : Type} (chunk_overlap : Nat) (l : List α) : List α :=
  if chunk_overlap = 0 then l else l.drop (l.length - (chunk_overlap + 9) / 10)

/-- The character footprint the loop charges a chunk's words:
`len(word) + 1` per word. -/
def wordsFootprint (ws : List String) : Nat := (ws.map (fun w => w.length + 1)).sum

namespace DocumentChunker

/-- `DocumentChunker.__init__` default `chunk_size` (`config.get('chunk_size', 1000)`). -/
def defaultChunkSize : Nat := 1000

/-- `DocumentChunker.__init__` default `chunk_overlap` (`config.get('chunk_overlap', 200)`). -/
def defaultChunkOverlap : Nat := 200

/-- One chunk dict produced by `_chunk_generic_content`: the joined text, the
constant `chunk_type: generic` metadata, and the content dict's
`document_type` (default `unknown`). -/
structure GenericChunk where
  content : String
  chunk_type : String
  document_type : String
  deriving DecidableEq

/-- The word-accumulation loop of `_chunk_generic_content` (`chunking.py`):
push each word, add `len(word) + 1` to the running character size, and when
the size reaches `chunk_size` emit the accumulated words as a chunk, carrying
`carrySlice` of them into the next chunk with the size reset to the carried
words' bare lengths (no `+1`s). -/
def chunkGenericLoop (chunk_size chunk_overlap : Nat) :
    List String → List String → Nat → List (List String) → List (List String) × List String
  | [], cur, _, chunks => (chunks, cur)
  | w :: ws, cur, size, chunks =>
    if size + w.length + 1 ≥ chunk_size then
      chunkGenericLoop chunk_size chunk_overlap ws (carrySlice chunk_overlap (cur ++ [w]))
        (((carrySlice chunk_overlap (cur ++ [w])).map String.length).sum)
        (chunks ++ [cur ++ [w]])
    else
      chunkGenericLoop chunk_size chunk_overlap ws (cur ++ [w]) (size + w.length + 1) chunks

/-- `DocumentChunker._chunk_generic_content` (leading underscore dropped) at
the level of per-chunk word lists: split the text into words, run the
accumulation loop, and emit any remaining words as a final chunk. -/
def chunk_generic_words (chunk_size chunk_overlap : Nat) (text : String) :
    List (List String) :=
  let res := chunkGenericLoop chunk_size chunk_overlap (pyWords text) [] 0 []
  if res.2 ≠ [] then res.1 ++ [res.2] else res.1

/-- `DocumentChunker._chunk_generic_content`: each emitted word list joined
with single spaces, tagged with the constant metadata. -/
def chunk_generic_content (chunk_size chunk_overlap : Nat) (document_type text : String) :
    List GenericChunk :=
  (chunk_generic_words chunk_size chunk_overlap text).map
    (fun ws =>
      { content := spaceJoin ws, chunk_type := "generic", document_type := document_type })

end DocumentChunker

/-- Modelled from the claim's words (spec §4.1), for comparison with the
source: the *claimed* generic strategy — windows of `chunk_size` words with
`chunk_overlap` trailing words carried into the next window, so consecutive
windows advance by `chunk_size - chunk_overlap` words; a trailing partial
window is emitted like any other. -/
def specWordWindows (chunk_size chunk_overlap : Nat) (text : String) : List (List String) :=
  VectorStore.windows chunk_size (chunk_size - chunk_overlap) (pyWords text)

/-- C8 counterexample: with `chunk_size = 12` and `chunk_overlap = 10` the
claimed word-window strategy makes every window hold `chunk_size = 12` words
(here all five words fit in the first window), but the code measures
`chunk_size` in characters (`len(word) + 1` per word) and carries
`-chunk_overlap // 10 = 1` trailing word, so it emits a first chunk of only
four words followed by `["dd", "ee"]` — not the claimed windows. -/
theorem C8_counterexample :
    DocumentChunker.chunk_generic_words 12 10 "aa bb cc dd ee"
      = [["aa", "bb", "cc", "dd"], ["dd", "ee"]] ∧
    specWordWindows 12 10 "aa bb cc dd ee"
      = [["aa", "bb", "cc", "dd", "ee"], ["cc", "dd", "ee"], ["ee"]] ∧
    DocumentChunker.chunk_generic_words 12 10 "aa bb cc dd ee"
      ≠ specWordWindows 12 10 "aa bb cc dd ee" :=
  ⟨by decide, by decide, by decide⟩

/-- The reconstruction reading for the amended C8: each chunk after the first
drops the words carried over from its predecessor. -/
def glueRest (chunk_overlap : Nat) : List String → List (List String) → List String
  | _, [] => []
  | prev, c :: rest =>
    c.drop (carrySlice chunk_overlap prev).length ++ glueRest chunk_overlap c rest

/-- Concatenation of chunks, dropping each chunk's carried-over prefix. -/
def glueChunks (chunk_overlap : Nat) : List (List String) → List String
  | [] => []
  | c :: rest => c ++ glueRest chunk_overlap c rest

theorem glueRest_append (chunk_overlap : Nat) :
    ∀ (l : List (List String)) (prev a : List String),
      glueRest chunk_overlap prev (l ++ [a])
        = glueRest chunk_overlap prev l
            ++ a.drop (carrySlice chunk_overlap (l.getLastD prev)).length
  | [], prev, a => by
    show a.drop (carrySlice chunk_overlap prev).length ++ glueRest chunk_overlap a []
        = [] ++ a.drop (carrySlice chunk_overlap prev).length
    show a.drop (carrySlice chunk_overlap prev).length ++ []
        = [] ++ a.drop (carrySlice chunk_overlap prev).length
    rw [List.append_nil, List.nil_append]
  | c :: l, prev, a => by
    show c.drop (carrySlice chunk_overlap prev).length ++ glueRest chunk_overlap c (l ++ [a])
        = (c.drop (carrySlice chunk_overlap prev).length ++ glueRest chunk_overlap c l)
            ++ a.drop (carrySlice chunk_overlap ((c :: l).getLastD prev)).length
    rw [glueRest_append chunk_overlap l c a, List.getLastD_cons, List.append_assoc]

theorem glueChunks_append (chunk_overlap : Nat) (l : List (List String)) (a : List String)
    (hl : l ≠ []) :
    glueChunks chunk_overlap (l ++ [a])
      = glueChunks chunk_overlap l
          ++ a.drop (carrySlice chunk_overlap (l.getLastD [])).length := by
  cases l with
  | nil => exact absurd rfl hl
  | cons c rest =>
    show c ++ glueRest chunk_overlap c (rest ++ [a])
        = (c ++ glueRest chunk_overlap c rest)
            ++ a.drop (carrySlice chunk_overlap ((c :: rest).getLastD [])).length
    rw [glueRest_append chunk_overlap rest c a, List.getLastD_cons, List.append_assoc]

theorem getLast?_eq_getLastD_of_ne_nil {α : Type} :
    ∀ (l : List α) (d : α), l ≠ [] → l.getLast? = some (l.getLastD d)
  | [], _, h => absurd rfl h
  | [a], _, _ => rfl
  | a :: b :: t, d, _ => by
    rw [List.getLast?_cons_cons, List.getLastD_cons]
    exact getLast?_eq_getLastD_of_ne_nil (b :: t) a (List.cons_ne_nil _ _)

namespace DocumentChunker

/-- Appending a fresh word to the current chunk extends the glue by that word,
as long as the current chunk still contains its carried-over prefix. -/
theorem glueChunks_snoc_word (chunk_overlap : Nat) (chunks : List (List String))
    (cur : List String) (w : String)
    (hcarry : ∀ last, chunks.getLast? = some last →
      (carrySlice chunk_overlap last).length ≤ cur.length) :
    glueChunks chunk_overlap (chunks ++ [cur ++ [w]])
      = glueChunks chunk_overlap (chunks ++ [cur]) ++ [w] := by
  cases hc : chunks with
  | nil =>
    show (cur ++ [w]) ++ glueRest chunk_overlap (cur ++ [w]) []
        = (cur ++ glueRest chunk_overlap cur []) ++ [w]
    show (cur ++ [w]) ++ [] = (cur ++ []) ++ [w]
    rw [List.append_nil, List.append_nil]
  | cons c rest =>
    rw [← hc]
    have hne : chunks ≠ [] := by rw [hc]; exact List.cons_ne_nil _ _
    rw [glueChunks_append chunk_overlap chunks _ hne, glueChunks_append chunk_overlap chunks _ hne]
    have hlast : chunks.getLast? = some (chunks.getLastD []) :=
      getLast?_eq_getLastD_of_ne_nil chunks [] hne
    have hk := hcarry (chunks.getLastD []) hlast
    rw [List.drop_append_eq_append_drop]
    rw [Nat.sub_eq_zero_of_le hk, List.drop_zero, ← List.append_assoc]

/-- The glue of the loop's final chunks-plus-current extends the glue of its
starting state by exactly the words processed. -/
theorem chunkGenericLoop_glue (S co : Nat) :
    ∀ (ws cur : List String) (size : Nat) (chunks : List (List String)),
      (∀ last, chunks.getLast? = some last →
        (carrySlice co last).length ≤ cur.length) →
      glueChunks co ((chunkGenericLoop S co ws cur size chunks).1
          ++ [(chunkGenericLoop S co ws cur size chunks).2])
        = glueChunks co (chunks ++ [cur]) ++ ws
  | [], cur, size, chunks => by
    intro _
    rw [List.append_nil]
    rfl
  | w :: ws, cur, size, chunks => by
    intro hcarry
    unfold chunkGenericLoop
    by_cases hS : size + w.length + 1 ≥ S
    · rw [if_pos hS]
      have hstep := chunkGenericLoop_glue S co ws (carrySlice co (cur ++ [w]))
        (((carrySlice co (cur ++ [w])).map String.length).sum) (chunks ++ [cur ++ [w]])
        (by
          intro last hlast
          rw [List.getLast?_concat] at hlast
          injection hlast with hlast'
          rw [← hlast'])
      rw [hstep]
      have h₁ : glueChunks co ((chunks ++ [cur ++ [w]]) ++ [carrySlice co (cur ++ [w])])
          = glueChunks co (chunks ++ [cur ++ [w]]) := by
        rw [glueChunks_append co (chunks ++ [cur ++ [w]]) _ (by
          intro habs
          cases List.append_ne_nil_of_right_ne_nil chunks (List.cons_ne_nil _ _) habs)]
        have hlastd : (chunks ++ [cur ++ [w]]).getLastD [] = cur ++ [w] := by
          have := List.getLast?_concat (a := cur ++ [w]) chunks
          have h₂ := getLast?_eq_getLastD_of_ne_nil (chunks ++ [cur ++ [w]]) []
            (List.append_ne_nil_of_right_ne_nil chunks (List.cons_ne_nil _ _))
          rw [this] at h₂
          injection h₂ with h₃
          exact h₃.symm
        rw [hlastd, List.drop_length, List.append_nil]
      rw [h₁, glueChunks_snoc_word co chunks cur w hcarry, List.append_assoc]
      rfl
    · rw [if_neg hS]
      have hstep := chunkGenericLoop_glue S co ws (cur ++ [w]) (size + w.length + 1) chunks
        (by
          intro last hlast
          have := hcarry last hlast
          rw [List.length_append]
          omega)
      rw [hstep, glueChunks_snoc_word co chunks cur w hcarry, List.append_assoc]
      rfl

/-- A chunk's bare word lengths sum to at most its charged footprint. -/
theorem sum_lengths_le_wordsFootprint : ∀ l : List String,
    (l.map String.length).sum ≤ wordsFootprint l
  | [] => Nat.le_refl _
  | w :: ws => by
    have h := sum_lengths_le_wordsFootprint ws
    simp only [wordsFootprint, List.map_cons, List.sum_cons] at *
    omega

theorem wordsFootprint_append (a b : List String) :
    wordsFootprint (a ++ b) = wordsFootprint a + wordsFootprint b := by
  unfold wordsFootprint
  rw [List.map_append, List.sum_append]

theorem wordsFootprint_singleton (w : String) : wordsFootprint [w] = w.length + 1 := by
  simp [wordsFootprint]

/-- Loop invariant: every chunk the loop has emitted has character footprint
at least `chunk_size`, because a chunk is emitted exactly when its running
size (a lower bound on its footprint) reaches `chunk_size`. -/
theorem chunkGenericLoop_footprint (S co : Nat) :
    ∀ (ws cur : List String) (size : Nat) (chunks : List (List String)),
      size ≤ wordsFootprint cur →
      (∀ c ∈ chunks, S ≤ wordsFootprint c) →
      ∀ c ∈ (chunkGenericLoop S co ws cur size chunks).1, S ≤ wordsFootprint c
  | [], cur, size, chunks => by
    intro _ hchunks
    exact hchunks
  | w :: ws, cur, size, chunks => by
    intro hsize hchunks
    unfold chunkGenericLoop
    by_cases hS : size + w.length + 1 ≥ S
    · rw [if_pos hS]
      refine chunkGenericLoop_footprint S co ws _ _ _ (sum_lengths_le_wordsFootprint _) ?_
      intro c hc
      rcases List.mem_append.mp hc with h | h
      · exact hchunks c h
      · have hceq : c = cur ++ [w] := List.mem_singleton.mp h
        rw [hceq, wordsFootprint_append, wordsFootprint_singleton]
        omega
    · rw [if_neg hS]
      refine chunkGenericLoop_footprint S co ws _ _ _ ?_ hchunks
      rw [wordsFootprint_append, wordsFootprint_singleton]
      omega

/-- Extending the pending chunk by a word preserves the carry-prefix chain. -/
theorem chain_snoc_word (co : Nat) (chunks : List (List String)) (cur : List String)
    (w : String)
    (h : List.Chain' (fun a b => (carrySlice co a).isPrefixOf b = true) (chunks ++ [cur])) :
    List.Chain' (fun a b => (carrySlice co a).isPrefixOf b = true)
      (chunks ++ [cur ++ [w]]) := by
  rcases List.chain'_append.mp h with ⟨h₁, -, h₃⟩
  refine List.chain'_append.mpr ⟨h₁, List.chain'_singleton _, ?_⟩
  intro x hx y hy
  simp only [List.head?_cons, Option.mem_def, Option.some.injEq] at hy
  subst hy
  have hxc := h₃ x hx cur (by simp)
  rw [List.isPrefixOf_iff_prefix] at hxc ⊢
  exact hxc.trans (List.prefix_append cur [w])

/-- Emitting the pending chunk and carrying its slice preserves the chain: the
carried slice is trivially a prefix of itself. -/
theorem chain_emit (co : Nat) (chunks : List (List String)) (c : List String)
    (h : List.Chain' (fun a b => (carrySlice co a).isPrefixOf b = true) (chunks ++ [c])) :
    List.Chain' (fun a b => (carrySlice co a).isPrefixOf b = true)
      ((chunks ++ [c]) ++ [carrySlice co c]) := by
  refine List.chain'_append.mpr ⟨h, List.chain'_singleton _, ?_⟩
  intro x hx y hy
  simp only [List.head?_cons, Option.mem_def, Option.some.injEq] at hy
  subst hy
  rw [List.getLast?_concat] at hx
  simp only [Option.mem_def, Option.some.injEq] at hx
  subst hx
  rw [List.isPrefixOf_iff_prefix]

/-- Loop invariant: the carry slice of each chunk in `chunks ++ [cur]` is a
prefix of its successor, preserved to the loop's final state. -/
theorem chunkGenericLoop_chain (S co : Nat) :
    ∀ (ws cur : List String) (size : Nat) (chunks : List (List String)),
      List.Chain' (fun a b => (carrySlice co a).isPrefixOf b = true) (chunks ++ [cur]) →
      List.Chain' (fun a b => (carrySlice co a).isPrefixOf b = true)
        ((chunkGenericLoop S co ws cur size chunks).1
          ++ [(chunkGenericLoop S co ws cur size chunks).2])
  | [], cur, size, chunks => by
    intro h
    exact h
  | w :: ws, cur, size, chunks => by
    intro h
    unfold chunkGenericLoop
    by_cases hS : size + w.length + 1 ≥ S
    · rw [if_pos hS]
      exact chunkGenericLoop_chain S co ws _ _ _
        (chain_emit co chunks (cur ++ [w]) (chain_snoc_word co chunks cur w h))
    · rw [if_neg hS]
      exact chunkGenericLoop_chain S co ws _ _ _ (chain_snoc_word co chunks cur w h)

end DocumentChunker

/-- C8 (amended): `_chunk_generic_content` does not emit windows of
`chunk_size` *words* advancing by `chunk_size - chunk_overlap`; it packs words
until their *character* footprint (`len(word) + 1` per word) reaches
`chunk_size`, then carries the last `-chunk_overlap // 10` words (i.e.
`⌈chunk_overlap / 10⌉`, or the whole chunk when `chunk_overlap = 0`) into the
next chunk, emitting the leftover words as a final partial chunk.  Stated over
the embedding: (a) each emitted chunk's content is the space-join of its word
list; (b) concatenating the chunks while dropping each one's carried-over
prefix recovers the text's word sequence exactly; (c) every chunk except
possibly the last has character footprint at least `chunk_size`; (d) each
chunk's carry slice is a prefix of the next chunk. -/
theorem C8_generic_chunker_amended (chunk_size chunk_overlap : Nat)
    (document_type text : String) :
    (DocumentChunker.chunk_generic_content chunk_size chunk_overlap document_type text).map
        (fun c => c.content)
      = (DocumentChunker.chunk_generic_words chunk_size chunk_overlap text).map spaceJoin ∧
    glueChunks chunk_overlap
        (DocumentChunker.chunk_generic_words chunk_size chunk_overlap text)
      = pyWords text ∧
    (∀ c ∈ (DocumentChunker.chunk_generic_words chunk_size chunk_overlap text).dropLast,
      chunk_size ≤ wordsFootprint c) ∧
    List.Chain' (fun a b => (carrySlice chunk_overlap a).isPrefixOf b = true)
      (DocumentChunker.chunk_generic_words chunk_size chunk_overlap text) := by
  have hglue := DocumentChunker.chunkGenericLoop_glue chunk_size chunk_overlap
    (pyWords text) [] 0 [] (by intro last hlast; cases hlast)
  have hfoot := DocumentChunker.chunkGenericLoop_footprint chunk_size chunk_overlap
    (pyWords text) [] 0 [] (Nat.le_refl _) (by intro c hc; cases hc)
  have hchain := DocumentChunker.chunkGenericLoop_chain chunk_size chunk_overlap
    (pyWords text) [] 0 [] (List.chain'_singleton _)
  rw [show glueChunks chunk_overlap (([] : List (List String)) ++ [[]]) = [] from rfl,
    List.nil_append] at hglue
  refine ⟨?_, ?_, ?_, ?_⟩
  · unfold DocumentChunker.chunk_generic_content
    rw [List.map_map]
    rfl
  · simp only [DocumentChunker.chunk_generic_words]
    by_cases h2 : (DocumentChunker.chunkGenericLoop chunk_size chunk_overlap
        (pyWords text) [] 0 []).2 = []
    · rw [if_neg (not_not_intro h2)]
      rw [h2] at hglue
      cases h1 : (DocumentChunker.chunkGenericLoop chunk_size chunk_overlap
          (pyWords text) [] 0 []).1 with
      | nil =>
        rw [h1] at hglue
        exact hglue
      | cons c rest =>
        rw [h1] at hglue
        rw [glueChunks_append chunk_overlap (c :: rest) [] (List.cons_ne_nil _ _),
          List.drop_nil, List.append_nil] at hglue
        exact hglue
    · rw [if_pos h2]
      exact hglue
  · simp only [DocumentChunker.chunk_generic_words]
    by_cases h2 : (DocumentChunker.chunkGenericLoop chunk_size chunk_overlap
        (pyWords text) [] 0 []).2 = []
    · rw [if_neg (not_not_intro h2)]
      intro c hc
      exact hfoot c (List.mem_of_mem_dropLast hc)
    · rw [if_pos h2, List.dropLast_concat]
      exact hfoot
  · simp only [DocumentChunker.chunk_generic_words]
    by_cases h2 : (DocumentChunker.chunkGenericLoop chunk_size chunk_overlap
        (pyWords text) [] 0 []).2 = []
    · rw [if_neg (not_not_intro h2)]
      rw [h2] at hchain
      exact (List.chain'_append.mp hchain).1
    · rw [if_pos h2]
      exact hchain

/-! ## Substring and split lemmas for the answer pipeline (claim C3) -/

theorem listIsPre_iff : ∀ p l : List Char, listIsPre p l = true ↔ p <+: l
  | [], l => by
    simp only [listIsPre]
    exact ⟨fun _ => List.nil_prefix, fun _ => trivial⟩
  | a :: ps, [] => by
    simp only [listIsPre]
    constructor
    · intro h
      cases h
    · intro h
      cases List.prefix_nil.mp h
  | a :: ps, b :: ls => by
    simp only [listIsPre, Bool.and_eq_true, beq_iff_eq]
    rw [listIsPre_iff ps ls, List.cons_prefix_cons]

theorem listIsSub_iff : ∀ l p : List Char, listIsSub p l = true ↔ p <:+: l
  | [], p => by
    simp only [listIsSub]
    rw [listIsPre_iff, List.prefix_nil, List.infix_nil]
  | x :: ls, p => by
    simp only [listIsSub, Bool.or_eq_true]
    rw [listIsPre_iff, listIsSub_iff ls p, List.infix_cons_iff]

theorem pyIn_iff (sub s : String) : pyIn sub s = true ↔ sub.toList <:+: s.toList := by
  unfold pyIn
  exact listIsSub_iff s.toList sub.toList

theorem pyIn_append_left (m a b : String) (h : pyIn m a = true) : pyIn m (a ++ b) = true := by
  rw [pyIn_iff] at h ⊢
  rw [show (a ++ b).toList = a.toList ++ b.toList from String.data_append a b]
  exact h.trans (List.prefix_append a.toList b.toList).isInfix

theorem pyIn_append_right (m a b : String) (h : pyIn m b = true) : pyIn m (a ++ b) = true := by
  rw [pyIn_iff] at h ⊢
  rw [show (a ++ b).toList = a.toList ++ b.toList from String.data_append a b]
  exact h.trans (List.suffix_append a.toList b.toList).isInfix

theorem splitSepF_ne_nil (sep : List Char) (n : Nat) (l : List Char) :
    splitSepF sep n l ≠ [] := by
  cases l with
  | nil => simp [splitSepF]
  | cons c rest =>
    cases n with
    | zero => simp [splitSepF]
    | succ m =>
      unfold splitSepF
      by_cases h : (decide (sep ≠ []) && listIsPre sep (c :: rest)) = true
      · rw [if_pos h]
        exact List.cons_ne_nil _ _
      · rw [if_neg h]
        cases hrec : splitSepF sep m rest with
        | nil => exact List.cons_ne_nil _ _
        | cons p ps => exact List.cons_ne_nil _ _

/-- If a non-empty separator occurs in the input, `split` yields at least two
pieces (so Python's `split(sep)[1]` cannot raise). -/
theorem splitSepF_two_le (sep : List Char) (hsep : sep ≠ []) :
    ∀ (n : Nat) (l : List Char), l.length ≤ n → listIsSub sep l = true →
      2 ≤ (splitSepF sep n l).length
  | n, [] => by
    intro _ hsub
    cases sep with
    | nil => exact absurd rfl hsep
    | cons a as => simp [listIsSub, listIsPre] at hsub
  | 0, c :: rest => by
    intro hlen
    simp at hlen
  | n + 1, c :: rest => by
    intro hlen hsub
    unfold splitSepF
    by_cases hpre : listIsPre sep (c :: rest) = true
    · rw [if_pos (by rw [Bool.and_eq_true]; exact ⟨decide_eq_true hsep, hpre⟩)]
      have hne := splitSepF_ne_nil sep n ((c :: rest).drop sep.length)
      have h1 := List.length_pos.mpr hne
      rw [List.length_cons]
      omega
    · rw [if_neg (by
        intro hcontra
        rw [Bool.and_eq_true] at hcontra
        exact hpre hcontra.2)]
      have hsub' : listIsSub sep rest = true := by
        simp only [listIsSub, Bool.or_eq_true] at hsub
        rcases hsub with h | h
        · exact absurd h hpre
        · exact h
      have hlen' : rest.length ≤ n := by
        rw [List.length_cons] at hlen
        omega
      have ih := splitSepF_two_le sep hsep n rest hlen' hsub'
      cases hrec : splitSepF sep n rest with
      | nil => exact absurd hrec (splitSepF_ne_nil sep n rest)
      | cons piece pieces =>
        rw [hrec] at ih
        show 2 ≤ ((c :: piece) :: pieces).length
        rw [List.length_cons] at ih ⊢
        omega

theorem pySplitSep_ne_nil (s sep : String) : pySplitSep s sep ≠ [] := by
  unfold pySplitSep
  intro h
  exact splitSepF_ne_nil sep.toList s.toList.length s.toList (List.map_eq_nil_iff.mp h)

theorem pySplitSep_two_le (s sep : String) (hsep : sep ≠ "") (h : pyIn sep s = true) :
    2 ≤ (pySplitSep s sep).length := by
  unfold pySplitSep
  rw [List.length_map]
  refine splitSepF_two_le sep.toList ?_ s.toList.length s.toList (Nat.le_refl _) h
  intro hl
  refine hsep ?_
  rw [← string_mk_toList sep, hl]

theorem get?_zero_of_ne_nil {α : Type} : ∀ l : List α, l ≠ [] → ∃ x, l.get? 0 = some x
  | [], h => absurd rfl h
  | a :: _, _ => ⟨a, rfl⟩

theorem get?_one_of_two_le {α : Type} : ∀ l : List α, 2 ≤ l.length → ∃ x, l.get? 1 = some x
  | [], h => by simp at h
  | [a], h => by simp at h
  | _ :: b :: _, _ => ⟨b, rfl⟩

/-! ## The answer pipeline (`rag_engine.py`): allergen summary, prompt,
fallback and `answer_question` (claim C3) -/

/-- Code-point comparison of character lists: Python's `str` ordering. -/
def charListLe : List Char → List Char → Bool
  | [], _ => true
  | _ :: _, [] => false
  | a :: as, b :: bs =>
    if a.toNat < b.toNat then true
    else if b.toNat < a.toNat then false
    else charListLe as bs

/-- Python `s <= t` on strings (lexicographic by code point). -/
def strLe (a b : String) : Bool := charListLe a.toList b.toList

def insertSorted (x : String) : List String → List String
  | [] => [x]
  | y :: ys => if strLe x y then x :: y :: ys else y :: insertSorted x ys

/-- Python `sorted(...)` on a list of strings (insertion sort; the repo only
sorts deduplicated lists, so stability is irrelevant). -/
def pySorted (l : List String) : List String := l.foldr insertSorted []

/-- One escaped character of Python `repr` on a string quoted with `q`.
Backslash, the quote, newline, carriage return and tab are escaped; any other
character is kept verbatim (the repository's texts hold no other control
characters). -/
def reprEscape (q c : Char) : List Char :=
  if c = '\\' then ['\\', '\\']
  else if c = q then ['\\', q]
  else if c = '\n' then ['\\', 'n']
  else if c = '\r' then ['\\', 'r']
  else if c = '\t' then ['\\', 't']
  else [c]

/-- Python `repr(s)`: single quotes unless the string contains `'` but no
`"`. -/
def pyReprStr (s : String) : String :=
  let q : Char := if s.toList.contains '\'' && !s.toList.contains '"' then '"' else '\''
  String.mk (q :: (s.toList.flatMap (reprEscape q) ++ [q]))

/-- Python `repr` / `str` of a list of strings. -/
def pyReprList (l : List String) : String :=
  "[" ++ commaJoin (l.map pyReprStr) ++ "]"

/-- Python `str(d)` for a dict mapping strings to lists of strings (the shape
of `context_by_company`), e.g. `\x7b'A': ['x']\x7d`. -/
def pyReprCtx (d : List (String × List String)) : String :=
  "\x7b" ++ commaJoin (d.map (fun p => pyReprStr p.1 ++ ": " ++ pyReprList p.2)) ++ "\x7d"

namespace LLMInterface

/-- `LLMInterface.get_allergen_info_for_context`: for each company group, the
union of the allergens detected in its snippets (`set.update`, modelled as
first-occurrence dedup), returned as `sorted(list(...))`. -/
def get_allergen_info_for_context (context_data : ContextData) :
    List (String × List String) :=
  context_data.context_by_company.map (fun p =>
    (p.1, pySorted (p.2.foldl
      (fun acc ctx => (detect_allergens_in_text ctx).foldl addIfAbsent acc) [])))

/-- `LLMInterface.suggest_alternatives_for_allergens`. -/
def suggest_alternatives_for_allergens (user_allergens : List String)
    (context_data : ContextData) : String :=
  if user_allergens = [] then ""
  else
    let allergen_info := get_allergen_info_for_context context_data
    let suggestions := allergen_info.map (fun p =>
      if !(user_allergens.any (fun a => p.2.contains a)) then
        "✅ " ++ p.1 ++ ": Semble compatible avec vos restrictions"
      else
        "⚠️ " ++ p.1 ++ ": Contient "
          ++ commaJoin (user_allergens.filter (fun a => p.2.contains a)))
    if suggestions ≠ [] then
      "\n\n🔍 **Analyse allergènes:**\n" ++ String.intercalate "\n" suggestions
    else ""

/-- The `allergen_summary` block appended to every answer when allergen info
exists (`answer_question`, step 5). -/
def allergenSummary (allergen_info : List (String × List String)) : String :=
  "\n\n🧾 **Résumé allergènes détectés:**\n"
    ++ String.join (allergen_info.map (fun p =>
        if p.2 ≠ [] then "• " ++ p.1 ++ ": " ++ commaJoin p.2 ++ "\n"
        else "• " ++ p.1 ++ ": Aucun allergène majeur détecté\n"))

/-- The `explicit_patterns` list of `_detect_company_in_query`. -/
def explicit_patterns (company_name : String) : List String :=
  ["chez " ++ company_name, "à " ++ company_name, company_name ++ " a-t-il",
   company_name ++ " avez-vous", company_name ++ " propose",
   "restaurant " ++ company_name, "pizzeria " ++ company_name]

/-- The `company_indicators` list of `_detect_company_in_query`. -/
def company_indicators (part : String) : List String :=
  [part ++ " pizza", part ++ " restaurant", "chez " ++ part, "pizzeria " ++ part]

/-- `LLMInterface._detect_company_in_query` (leading underscore dropped): the
first configured document whose lower-cased company name is explicitly
mentioned in the query, either by one of the explicit patterns or by a
company-name part longer than 4 characters followed by a restaurant
indicator. -/
def detect_company_in_query (documents : List DocumentConfig) (query : String) :
    Option String :=
  let query_lower := pyLower query
  documents.findSome? (fun doc =>
    let company_name := pyLower (get_company_name documents doc.name)
    if (explicit_patterns company_name).any (fun p => pyIn p query_lower) then some doc.name
    else
      (pyWords company_name).findSome? (fun part =>
        if part.length > 4 then
          if (company_indicators part).any (fun ind => pyIn ind query_lower) then some doc.name
          else none
        else none))

def systemRoleMulti : String :=
  "Tu es un assistant du groupe de pizzerias. Nous avons plusieurs restaurants avec des menus différents."

def systemRoleSingle : String :=
  "Tu es un assistant de pizzeria. Réponds en français, sois précis et utile."

def instructionsMulti : String :=
  "INSTRUCTIONS:\n- Nous sommes un groupe de pizzerias avec plusieurs restaurants\n- Si la question est générale, présente les options de chaque restaurant séparément\n- Si un restaurant spécifique est mentionné, concentre-toi sur celui-ci\n- Sois précis sur quel restaurant offre quoi\n- Format: \"Chez [Nom Restaurant]: [info]\" pour chaque restaurant\n- PRIORITÉ ABSOLUE: TOUJOURS inclure les informations d\x27allergènes pour chaque pizza mentionnée\n- Si des allergènes sont détectés, AVERTIS CLAIREMENT le client avec des emojis ⚠️\n- Si le client mentionne des allergies spécifiques, VÉRIFIE LA COMPATIBILITÉ\n- Suggère des alternatives sans allergènes si nécessaire\n- Utilise le format: \"⚠️ Allergènes: [liste]\" ou \"✅ Aucun allergène majeur détecté\"\n- Reste dans le rôle d\x27un assistant de groupe de pizzerias"

def instructionsSingle : String :=
  "INSTRUCTIONS:\n- Réponds uniquement en français\n- Base-toi uniquement sur les informations du contexte fourni\n- Si l\x27information n\x27est pas dans le contexte, dis-le clairement\n- PRIORITÉ ABSOLUE: TOUJOURS inclure les informations d\x27allergènes pour chaque pizza mentionnée\n- Si des allergènes sont détectés, AVERTIS CLAIREMENT le client avec des emojis ⚠️\n- Si le client mentionne des allergies spécifiques, VÉRIFIE LA COMPATIBILITÉ\n- Utilise le format: \"⚠️ Allergènes: [liste]\" ou \"✅ Aucun allergène majeur détecté\"\n- Suggère des alternatives sans allergènes si nécessaire\n- Sois précis et utile\n- Reste dans le rôle d\x27un assistant de pizzeria"

/-- One company's block of the multi-company context text (`create_prompt`).
Python's `company_name in allergen_info and allergen_info[company_name]` is
the lookup-with-default being non-empty. -/
def multiCompanyBlock (allergen_info : List (String × List String))
    (p : String × List String) : String :=
  "🍕 " ++ pyUpper p.1 ++ ":\n"
    ++ String.join (p.2.map (fun ctx => "   " ++ ctx ++ "\n"))
    ++ (if (alGet? allergen_info p.1).getD [] ≠ [] then
          "   ⚠️ ALLERGÈNES DÉTECTÉS: " ++ commaJoin ((alGet? allergen_info p.1).getD []) ++ "\n"
        else "   ✅ AUCUN ALLERGÈNE MAJEUR DÉTECTÉ\n")
    ++ "\n"

/-- The multi-company `context_text` of `create_prompt`. -/
def contextTextMulti (allergen_info ctx : List (String × List String)) : String :=
  "INFORMATIONS DE NOS DIFFÉRENTS SERVICES:\n\n"
    ++ String.join (ctx.map (multiCompanyBlock allergen_info))

/-- The single-company `context_text` of `create_prompt`
(`list(context_by_company.keys())[0] if context_by_company else "Restaurant"`). -/
def contextTextSingle (allergen_info ctx : List (String × List String)) : String :=
  let company_name := match ctx with
    | [] => "Restaurant"
    | p :: _ => p.1
  "INFORMATIONS DE " ++ pyUpper company_name ++ ":\n\n"
    ++ String.join (ctx.map (fun p => String.join (p.2.map (fun c => c ++ "\n\n"))))
    ++ (if (alGet? allergen_info company_name).getD [] ≠ [] then
          "⚠️ ALLERGÈNES DÉTECTÉS: " ++ commaJoin ((alGet? allergen_info company_name).getD []) ++ "\n\n"
        else "✅ AUCUN ALLERGÈNE MAJEUR DÉTECTÉ\n\n")

/-- The final f-string assembling the prompt (`create_prompt`). -/
def promptLayout (system_role context_text user_question instructions : String) : String :=
  system_role ++ "\n\n" ++ context_text ++ "\n\nQUESTION DU CLIENT: " ++ user_question
    ++ "\n\n" ++ instructions ++ "\n\nRÉPONSE:"

/-- `LLMInterface.create_prompt`.  (Its `document_names` parameter is unused
in the source body and is omitted.)  `config.allergen.allergens_list or []`
is the non-empty constant list itself. -/
def create_prompt (user_question : String) (context_data : ContextData) : String :=
  let allergen_info := get_allergen_info_for_context context_data
  let context_text0 :=
    if context_data.has_multiple_companies then
      contextTextMulti allergen_info context_data.context_by_company
    else contextTextSingle allergen_info context_data.context_by_company
  let context_text1 := context_text0 ++ "\nLISTE COMPLÈTE DES ALLERGÈNES À SURVEILLER:\n"
      ++ commaJoin AllergenConfig.allergens_list ++ "\n\n"
  let context_text :=
    if extract_user_allergens_from_question user_question ≠ [] then
      context_text1 ++ "⚠️ ATTENTION: Le client a mentionné être allergique à: "
        ++ commaJoin (extract_user_allergens_from_question user_question) ++ "\n\n"
    else context_text1
  promptLayout
    (if context_data.has_multiple_companies then systemRoleMulti else systemRoleSingle)
    context_text user_question
    (if context_data.has_multiple_companies then instructionsMulti else instructionsSingle)

/-- The f-string returned by `_fallback_response` once the question has been
extracted: the offline banner, the `str(...)` of the retrieved
`context_by_company` (or the no-data sentence), and the recovery
instructions. -/
def fallbackText (question : String) (context_data : ContextData) : String :=
  "🍕 Assistant Pizzeria (Mode Hors Ligne)\n\nDésolé, je ne peux pas accéder au modèle de langage actuellement.\n\nVoici ce que j\x27ai trouvé dans nos documents pour \""
    ++ question
    ++ "\":\n\n"
    ++ (if context_data.context_by_company ≠ [] then pyReprCtx context_data.context_by_company
        else "Aucune information pertinente trouvée dans notre base de données.")
    ++ "\n\nPour activer la fonctionnalité complète:\n1. Lancez Ollama: ollama serve\n2. Vérifiez que les modèles sont disponibles: ollama list"

/-- The question-extraction step of `_fallback_response`.  Python's
`split(...)[1]` and `split(...)[0]` raise `IndexError` when the index is out
of range; that exception (the `.error` branch) would escape `query_llm`. -/
def fallback_question (prompt : String) : Except String String :=
  if pyIn "QUESTION DU CLIENT:" prompt then
    match (pySplitSep prompt "QUESTION DU CLIENT: ").get? 1 with
    | none => Except.error "IndexError: list index out of range"
    | some piece =>
      match (pySplitSep piece "INSTRUCTIONS:").get? 0 with
      | none => Except.error "IndexError: list index out of range"
      | some head => Except.ok (pyStrip head)
  else Except.ok "votre question"

/-- `LLMInterface._fallback_response` (leading underscore dropped): extract
the question from the prompt, re-retrieve context with `max_chunks=2`, and
format the offline answer. -/
def fallback_response (documents : List DocumentConfig)
    (search : String → DocNames → Nat → SearchResponse) (prompt : String) :
    Except String String :=
  (fallback_question prompt).map (fun question =>
    fallbackText question (get_context documents search question DocNames.noneName 2))

/-- `LLMInterface.query_llm`: `chat` stands for the `ollama.chat` call
returning `response['message']['content']` (`.ok`) or raising (`.error`); on
failure the fallback response is returned instead. -/
def query_llm (documents : List DocumentConfig)
    (search : String → DocNames → Nat → SearchResponse)
    (chat : String → Except String String) (prompt : String) : Except String String :=
  match chat prompt with
  | Except.ok content => Except.ok (pyStrip content)
  | Except.error _ => fallback_response documents search prompt

/-- The dictionary returned by `answer_question`.  `searched_documents` is
Python's `document_names or [doc.name for doc in config.documents]`, which is
either a plain string or a list — kept as a `DocNames`. -/
structure AnswerRecord where
  status : String
  question : String
  answer : String
  context_used : List (String × List String)
  has_context : Bool
  searched_documents : DocNames
  has_multiple_companies : Bool
  companies_found : List String
  allergen_info : List (String × List String)
  user_allergens : List String
  deriving DecidableEq

/-- `document_names or [doc.name for doc in config.documents]` (`None`, the
empty string and the empty list are falsy). -/
def orAllDocNames (documents : List DocumentConfig) : DocNames → DocNames
  | DocNames.noneName => DocNames.many (documents.map (fun d => d.name))
  | DocNames.one s =>
    if s = "" then DocNames.many (documents.map (fun d => d.name)) else DocNames.one s
  | DocNames.many l =>
    if l = [] then DocNames.many (documents.map (fun d => d.name)) else DocNames.many l

/-- `if user_allergens is None: user_allergens = extract_user_allergens_from_question(question)`. -/
def resolveUserAllergens (question : String) : Option (List String) → List String
  | none => extract_user_allergens_from_question question
  | some ua => ua

/-- `if document_names is None: document_names = detected company (if any)`. -/
def resolveDocNames (documents : List DocumentConfig) (question : String) :
    DocNames → DocNames
  | DocNames.noneName =>
    match detect_company_in_query documents question with
    | some c => DocNames.one c
    | none => DocNames.noneName
  | d => d

/-- The `except`-branch record of `answer_question`
(`user_allergens or []` is the identity on lists). -/
def errorRecord (question : String) (user_allergens : List String) (err : String) :
    AnswerRecord :=
  { status := "error", question := question,
    answer := "Désolé, une erreur s\x27est produite: " ++ err,
    context_used := [], has_context := false, searched_documents := DocNames.many [],
    has_multiple_companies := false, companies_found := [], allergen_info := [],
    user_allergens := user_allergens }

/-- The success record of `answer_question` (steps 5-6): the LLM (or
fallback) answer, extended with the allergen summary when allergen info
exists and with the user-specific analysis when it is non-empty. -/
def successRecord (documents : List DocumentConfig) (question : String)
    (document_names2 : DocNames) (context_data : ContextData)
    (allergen_info : List (String × List String)) (user_allergens : List String)
    (answer0 : String) : AnswerRecord :=
  let allergen_analysis :=
    if user_allergens ≠ [] then suggest_alternatives_for_allergens user_allergens context_data
    else ""
  let answer1 :=
    if allergen_info ≠ [] then answer0 ++ allergenSummary allergen_info else answer0
  let answer2 := if allergen_analysis ≠ "" then answer1 ++ allergen_analysis else answer1
  { status := "success", question := question, answer := answer2,
    context_used := context_data.context_by_company,
    has_context := !context_data.context_by_company.isEmpty,
    searched_documents := orAllDocNames documents document_names2,
    has_multiple_companies := context_data.has_multiple_companies,
    companies_found := context_data.context_by_company.map (fun p => p.1),
    allergen_info := allergen_info,
    user_allergens := user_allergens }

/-- `LLMInterface.answer_question`: resolve user allergens and target
documents, retrieve context (default `max_chunks=5`), build the prompt, query
the model, and assemble the record; the only failing step of the embedded
pipeline is `query_llm` (an `IndexError` escaping `_fallback_response`),
caught by the `except` branch.  The Python locals `context_data` /
`allergen_info` / `prompt` are written out. -/
def answer_question (documents : List DocumentConfig)
    (search : String → DocNames → Nat → SearchResponse)
    (chat : String → Except String String)
    (question : String) (document_names : DocNames := DocNames.noneName)
    (user_allergens? : Option (List String) := none) : AnswerRecord :=
  match query_llm documents search chat
      (create_prompt question
        (get_context documents search question
          (resolveDocNames documents question document_names) 5)) with
  | Except.error err =>
    errorRecord question (resolveUserAllergens question user_allergens?) err
  | Except.ok answer0 =>
    successRecord documents question (resolveDocNames documents question document_names)
      (get_context documents search question
        (resolveDocNames documents question document_names) 5)
      (get_allergen_info_for_context
        (get_context documents search question
          (resolveDocNames documents question document_names) 5))
      (resolveUserAllergens question user_allergens?) answer0

end LLMInterface

namespace LLMInterface

/-- The prompt layout always embeds the `"QUESTION DU CLIENT: "` separator
that `_fallback_response` splits on. -/
theorem promptLayout_has_marker (a b c d : String) :
    pyIn "QUESTION DU CLIENT: " (promptLayout a b c d) = true := by
  unfold promptLayout
  apply pyIn_append_left
  apply pyIn_append_left
  apply pyIn_append_left
  apply pyIn_append_left
  apply pyIn_append_right
  decide

theorem create_prompt_has_marker (uq : String) (cd : ContextData) :
    pyIn "QUESTION DU CLIENT: " (create_prompt uq cd) = true := by
  unfold create_prompt
  exact promptLayout_has_marker _ _ _ _

/-- On a prompt containing the separator, the question extraction cannot hit
either `IndexError`. -/
theorem fallback_question_ok (prompt : String)
    (h : pyIn "QUESTION DU CLIENT: " prompt = true) :
    ∃ q, fallback_question prompt = Except.ok q := by
  have h0 : pyIn "QUESTION DU CLIENT:" prompt = true := by
    rw [pyIn_iff] at h ⊢
    have he : ("QUESTION DU CLIENT: ").toList = ("QUESTION DU CLIENT:").toList ++ [' '] := by
      decide
    rw [he] at h
    exact (List.prefix_append _ _).isInfix.trans h
  unfold fallback_question
  rw [if_pos h0]
  obtain ⟨piece, hp⟩ := get?_one_of_two_le _
    (pySplitSep_two_le prompt "QUESTION DU CLIENT: " (by decide) h)
  rw [hp]
  obtain ⟨head, hh⟩ := get?_zero_of_ne_nil _ (pySplitSep_ne_nil piece "INSTRUCTIONS:")
  show ∃ q, (match (pySplitSep piece "INSTRUCTIONS:").get? 0 with
    | none => Except.error "IndexError: list index out of range"
    | some head => Except.ok (pyStrip head)) = Except.ok q
  rw [hh]
  exact ⟨pyStrip head, rfl⟩

theorem fallback_response_ok (documents : List DocumentConfig)
    (search : String → DocNames → Nat → SearchResponse) (prompt : String)
    (h : pyIn "QUESTION DU CLIENT: " prompt = true) :
    ∃ q, fallback_response documents search prompt
      = Except.ok (fallbackText q (get_context documents search q DocNames.noneName 2)) := by
  obtain ⟨q, hq⟩ := fallback_question_ok prompt h
  refine ⟨q, ?_⟩
  unfold fallback_response
  rw [hq]
  rfl

theorem fallbackText_mode_marker (q : String) (cd : ContextData) :
    pyIn "Mode Hors Ligne" (fallbackText q cd) = true := by
  unfold fallbackText
  apply pyIn_append_left
  apply pyIn_append_left
  apply pyIn_append_left
  apply pyIn_append_left
  decide

theorem fallbackText_recovery_marker (q : String) (cd : ContextData) :
    pyIn "1. Lancez Ollama: ollama serve" (fallbackText q cd) = true := by
  unfold fallbackText
  apply pyIn_append_right
  decide

theorem successRecord_status (documents : List DocumentConfig) (question : String)
    (dn : DocNames) (cd : ContextData) (ai : List (String × List String))
    (ua : List String) (a0 : String) :
    (successRecord documents question dn cd ai ua a0).status = "success" := rfl

/-- The assembled answer is the base answer plus (possibly empty) allergen
blocks. -/
theorem successRecord_answer (documents : List DocumentConfig) (question : String)
    (dn : DocNames) (cd : ContextData) (ai : List (String × List String))
    (ua : List String) (a0 : String) :
    ∃ s, (successRecord documents question dn cd ai ua a0).answer = a0 ++ s := by
  simp only [successRecord]
  by_cases hai : ai ≠ []
  · by_cases han : (if ua ≠ [] then suggest_alternatives_for_allergens ua cd else "") ≠ ""
    · refine ⟨allergenSummary ai
        ++ (if ua ≠ [] then suggest_alternatives_for_allergens ua cd else ""), ?_⟩
      rw [if_pos han, if_pos hai, String.append_assoc]
    · refine ⟨allergenSummary ai, ?_⟩
      rw [if_neg han, if_pos hai]
  · by_cases han : (if ua ≠ [] then suggest_alternatives_for_allergens ua cd else "") ≠ ""
    · refine ⟨(if ua ≠ [] then suggest_alternatives_for_allergens ua cd else ""), ?_⟩
      rw [if_pos han, if_neg hai]
    · refine ⟨"", ?_⟩
      rw [if_neg han, if_neg hai, String.append_empty]

end LLMInterface

/-- C3: when the chat-model call fails for every prompt (`chat` always
raising, modelled as `Except.error e`), `answer_question` still returns —
no exception escapes, since the prompt always contains the
`"QUESTION DU CLIENT: "` separator the fallback splits on — a
`status = "success"` record whose answer is the deterministic fallback text
of `_fallback_response`, built from context re-retrieved for the extracted
question and stating degraded mode (`"Mode Hors Ligne"`) and recovery
instructions (`"1. Lancez Ollama: ollama serve"`), possibly extended by the
allergen-summary blocks — never a raw exception. -/
theorem C3_llm_failure_fallback (documents : List DocumentConfig)
    (search : String → DocNames → Nat → SearchResponse) (e : String)
    (question : String) (document_names : DocNames)
    (user_allergens? : Option (List String)) :
    (LLMInterface.answer_question documents search (fun _ => Except.error e) question
        document_names user_allergens?).status = "success" ∧
    (∃ q s, (LLMInterface.answer_question documents search (fun _ => Except.error e) question
        document_names user_allergens?).answer
      = LLMInterface.fallbackText q
          (LLMInterface.get_context documents search q DocNames.noneName 2) ++ s) ∧
    pyIn "Mode Hors Ligne"
      ((LLMInterface.answer_question documents search (fun _ => Except.error e) question
        document_names user_allergens?).answer) = true ∧
    pyIn "1. Lancez Ollama: ollama serve"
      ((LLMInterface.answer_question documents search (fun _ => Except.error e) question
        document_names user_allergens?).answer) = true := by
  obtain ⟨q, hq⟩ := LLMInterface.fallback_response_ok documents search
    (LLMInterface.create_prompt question (LLMInterface.get_context documents search question
      (LLMInterface.resolveDocNames documents question document_names) 5))
    (LLMInterface.create_prompt_has_marker _ _)
  have hrec : LLMInterface.answer_question documents search (fun _ => Except.error e) question
      document_names user_allergens?
    = LLMInterface.successRecord documents question
        (LLMInterface.resolveDocNames documents question document_names)
        (LLMInterface.get_context documents search question
          (LLMInterface.resolveDocNames documents question document_names) 5)
        (LLMInterface.get_allergen_info_for_context
          (LLMInterface.get_context documents search question
            (LLMInterface.resolveDocNames documents question document_names) 5))
        (LLMInterface.resolveUserAllergens question user_allergens?)
        (LLMInterface.fallbackText q
          (LLMInterface.get_context documents search q DocNames.noneName 2)) := by
    unfold LLMInterface.answer_question
    have hql : LLMInterface.query_llm documents search (fun _ => Except.error e)
        (LLMInterface.create_prompt question (LLMInterface.get_context documents search question
          (LLMInterface.resolveDocNames documents question document_names) 5))
      = LLMInterface.fallback_response documents search
          (LLMInterface.create_prompt question (LLMInterface.get_context documents search question
            (LLMInterface.resolveDocNames documents question document_names) 5)) := rfl
    rw [hql, hq]
  obtain ⟨s, hans⟩ := LLMInterface.successRecord_answer documents question
    (LLMInterface.resolveDocNames documents question document_names)
    (LLMInterface.get_context documents search question
      (LLMInterface.resolveDocNames documents question document_names) 5)
    (LLMInterface.get_allergen_info_for_context
      (LLMInterface.get_context documents search question
        (LLMInterface.resolveDocNames documents question document_names) 5))
    (LLMInterface.resolveUserAllergens question user_allergens?)
    (LLMInterface.fallbackText q
      (LLMInterface.get_context documents search q DocNames.noneName 2))
  refine ⟨?_, ⟨q, s, ?_⟩, ?_, ?_⟩
  · rw [hrec]
    rfl
  · rw [hrec, hans]
  · rw [hrec, hans]
    exact pyIn_append_left _ _ _ (LLMInterface.fallbackText_mode_marker _ _)
  · rw [hrec, hans]
    exact pyIn_append_left _ _ _ (LLMInterface.fallbackText_recovery_marker _ _)
